import Mathlib

/-!
Verification development for the i2pd core slice (Streaming.cpp / Streaming.h /
NetDb.cpp).  The C++ operations are shallowly embedded as executable Lean
functions over explicit state records; machine integers are modelled as `Nat`
(for the unsigned types) and `Int` (for `int32_t`), with explicit reductions
modulo 2^32 where the code converts between them.  All definitions follow the
source; the few helpers whose bodies live outside the provided sources
(RouterInfo.cpp, LeaseSet.cpp, Identity.h) are modelled from the specification
and marked as such in their doc comments.
-/

namespace I2pd

/-! ### Packet flag constants (Streaming.h lines 25-41) -/

def PACKET_FLAG_SYNCHRONIZE : Nat := 0x0001
def PACKET_FLAG_CLOSE : Nat := 0x0002
def PACKET_FLAG_RESET : Nat := 0x0004
def PACKET_FLAG_SIGNATURE_INCLUDED : Nat := 0x0008
def PACKET_FLAG_SIGNATURE_REQUESTED : Nat := 0x0010
def PACKET_FLAG_FROM_INCLUDED : Nat := 0x0020
def PACKET_FLAG_DELAY_REQUESTED : Nat := 0x0040
def PACKET_FLAG_MAX_PACKET_SIZE_INCLUDED : Nat := 0x0080
def PACKET_FLAG_PROFILE_INTERACTIVE : Nat := 0x0100
def PACKET_FLAG_ECHO : Nat := 0x0200
def PACKET_FLAG_NO_ACK : Nat := 0x0400

def STREAMING_MTU : Nat := 1730
def MAX_PACKET_SIZE : Nat := 4096
def RESEND_TIMEOUT : Nat := 10
def MAX_NUM_RESEND_ATTEMPTS : Nat := 5

/-! ### Machine-integer conversions

`toUInt32` models storing an `int32_t` value into a `uint32_t` field
(`htobe32 (m_LastReceivedSequenceNumber)`), `toInt32` models the implicit
conversion `int32_t receivedSeqn = packet->GetSeqn ()` from `uint32_t`. -/

def toUInt32 (i : Int) : Nat := (i % 4294967296).toNat

def toInt32 (n : Nat) : Int :=
  if n < 2147483648 then (n : Int) else (n : Int) - 4294967296

/-! ### Received packets

`Packet` models the decoded view of a received streaming packet, one field per
accessor of `struct Packet` (Streaming.h lines 43-67): `GetReceiveStreamID`,
`GetSeqn`, `GetAckThrough`, `GetNACK`, and the flag tests derived from
`GetFlags`.  The signature option (`PACKET_FLAG_SIGNATURE_INCLUDED`) is
represented by `hasSig` together with the abstract outcome `sigOk` of
`m_RemoteIdentity.Verify`; the byte-level zero/restore dance of that option is
modelled separately (see `processPacketSignature`). -/

structure Packet where
  receiveStreamID : Nat
  seqn : Nat
  ackThrough : Nat
  nacks : List Nat
  isSyn : Bool
  isClose : Bool
  isNoAck : Bool
  hasSig : Bool
  sigOk : Bool
  payload : List Nat
deriving DecidableEq

/-- Outgoing packet as built by `Stream::Send`, `Stream::SendQuickAck` and
`Stream::Close`: one field per value written into the byte buffer, in buffer
order (streamIDs, sequence number, ackThrough, flags, options size, payload).
The NACK count and resend delay bytes are always written as 0 and elided. -/
structure WirePacket where
  sendStreamID : Nat
  recvStreamID : Nat
  seqn : Nat
  ackThrough : Nat
  flags : Nat
  optionsSize : Nat
  payload : List Nat
deriving DecidableEq

/-- Stream state (Streaming.h lines 123-138).  `receiveQueue` stores, for each
queued packet, the not-yet-consumed payload bytes (the C++ `offset` pointer is
absorbed by dropping consumed bytes).  `savedPackets` and `sentPackets` model
the `std::set` ordered by sequence number as sorted lists.  `sentWire` records
every packet handed to `SendPackets` (the posted `SendPacket` calls are taken
to run synchronously); `tunnelOk` models `m_CurrentOutboundTunnel != nullptr`
and `leasePicks` counts `UpdateCurrentRemoteLease` calls (the lease choice
itself depends on the RNG and netdb and is not needed by any claim).
`identityLen`/`signatureLen` are the per-destination constants
`GetIdentity().GetFullLen()` / `GetSignatureLen()`. -/
structure StreamState where
  sendStreamID : Nat
  recvStreamID : Nat
  sequenceNumber : Nat
  lastReceived : Int
  isOpen : Bool
  identityLen : Nat
  signatureLen : Nat
  receiveQueue : List (List Nat)
  savedPackets : List Packet
  sentPackets : List WirePacket
  sentWire : List WirePacket
  tunnelOk : Bool
  leasePicks : Nat
deriving DecidableEq

/-- Incoming-stream constructor (Streaming.cpp lines 30-37): stream IDs and
sequence counters zeroed, `m_LastReceivedSequenceNumber = -1`, not open. -/
def initialIncomingStream (recvID idLen sigLen : Nat) : StreamState :=
  { sendStreamID := 0, recvStreamID := recvID, sequenceNumber := 0,
    lastReceived := -1, isOpen := false,
    identityLen := idLen, signatureLen := sigLen,
    receiveQueue := [], savedPackets := [], sentPackets := [], sentWire := [],
    tunnelOk := true, leasePicks := 0 }

/-- Ordered insert into `m_SentPackets` (a `std::set` ordered by `GetSeqn`);
an element with an equal sequence number makes the insert a no-op. -/
def insertSent (w : WirePacket) : List WirePacket → List WirePacket
  | [] => [w]
  | q :: rest =>
    if w.seqn < q.seqn then w :: q :: rest
    else if w.seqn = q.seqn then q :: rest
    else q :: insertSent w rest

/-- `Stream::SavePacket` / `m_SavedPackets.insert` (Streaming.cpp lines
121-124): ordered insert by `GetSeqn`; inserting a duplicate sequence number
leaves the set unchanged. -/
def insertSaved (p : Packet) : List Packet → List Packet
  | [] => [p]
  | q :: rest =>
    if p.seqn < q.seqn then p :: q :: rest
    else if p.seqn = q.seqn then q :: rest
    else q :: insertSaved p rest

/-- `Stream::SendQuickAck` (Streaming.cpp lines 305-329): a headers-only packet
with sequence number 0, `ackThrough = m_LastReceivedSequenceNumber`, no flags,
no options, handed to `SendPackets` (so not retained in `m_SentPackets`). -/
def sendQuickAck (s : StreamState) : StreamState :=
  { s with sentWire := s.sentWire ++
      [{ sendStreamID := s.sendStreamID, recvStreamID := s.recvStreamID,
         seqn := 0, ackThrough := toUInt32 s.lastReceived,
         flags := 0, optionsSize := 0, payload := [] }] }

/-- `Stream::Close` (Streaming.cpp lines 331-364): when open, emit a signed
packet with `CLOSE | SIGNATURE_INCLUDED`, consuming one sequence number, and
leave the open state. The packet goes through `SendPacket`, so it also enters
`m_SentPackets`. -/
def closeStream (s : StreamState) : StreamState :=
  if s.isOpen then
    let fin : WirePacket :=
      { sendStreamID := s.sendStreamID, recvStreamID := s.recvStreamID,
        seqn := s.sequenceNumber % 4294967296,
        ackThrough := toUInt32 s.lastReceived,
        flags := Nat.lor PACKET_FLAG_CLOSE PACKET_FLAG_SIGNATURE_INCLUDED,
        optionsSize := s.signatureLen, payload := [] }
    { s with
      isOpen := false
      sequenceNumber := (s.sequenceNumber + 1) % 4294967296
      sentWire := s.sentWire ++ [fin]
      sentPackets := insertSent fin s.sentPackets }
  else s

/-- Body of `Stream::ProcessAck` (Streaming.cpp lines 195-230): walk the sorted
sent set; every packet with `seqn <= ackThrough` whose seqn is not NACKed is
removed; the walk stops at the first packet beyond `ackThrough`. -/
def processAckLoop (ackThrough : Nat) (nacks : List Nat) :
    List WirePacket → List WirePacket
  | [] => []
  | q :: rest =>
    if q.seqn ≤ ackThrough then
      if q.seqn ∈ nacks then q :: processAckLoop ackThrough nacks rest
      else processAckLoop ackThrough nacks rest
    else q :: rest

def processAck (s : StreamState) (p : Packet) : StreamState :=
  { s with sentPackets := processAckLoop p.ackThrough p.nacks s.sentPackets }

/-- `Stream::ProcessPacket` (Streaming.cpp lines 126-193).  Option parsing
(`FROM_INCLUDED`, `MAX_PACKET_SIZE_INCLUDED`, delay) only advances the option
cursor and stores the remote identity; the state effects are: on a failed
signature `Close()` is called and the CLOSE flag is forced; a non-empty payload
is queued; `m_LastReceivedSequenceNumber` becomes the packet seqn; a CLOSE flag
sends a quick ack and clears `m_IsOpen`. -/
def processPacket (s : StreamState) (p : Packet) : StreamState :=
  let sigFail := p.hasSig && !p.sigOk
  let s := if sigFail then closeStream s else s
  let closeFlag := p.isClose || sigFail
  let s := if p.payload ≠ [] then
      { s with receiveQueue := s.receiveQueue ++ [p.payload] }
    else s
  let s := { s with lastReceived := toInt32 p.seqn }
  if closeFlag then { sendQuickAck s with isOpen := false } else s

/-- Drain loop of `Stream::HandleNextPacket` (Streaming.cpp lines 81-92):
process saved packets from the front of the ordered set while the head's seqn
equals `(uint32_t)(m_LastReceivedSequenceNumber + 1)`; the set field of the
running state is reattached on exit.  `ProcessPacket` never touches the saved
set, so carrying the list separately is faithful to the iterator loop. -/
def drainSaved (s : StreamState) : List Packet → StreamState
  | [] => { s with savedPackets := [] }
  | q :: rest =>
    if q.seqn = toUInt32 (s.lastReceived + 1) then
      drainSaved (processPacket s q) rest
    else { s with savedPackets := q :: rest }

/-! ### `Stream::Send` (Streaming.cpp lines 232-302)

The while loop is written with an explicit fuel argument so that the function
stays computable by kernel reduction; `streamSend` supplies `buf.length + 1`,
which is always enough: the first iteration opens the stream and every further
iteration consumes at least one payload byte (follow-on capacity is
`STREAMING_MTU - 22 = 1708`).  The 0-fuel fallback returns the residual length,
and the theorems below show the residual is always empty, i.e. the fuel bound
is never hit. -/

def initialFlags (isNoAck : Bool) : Nat :=
  let f := Nat.lor (Nat.lor (Nat.lor PACKET_FLAG_SYNCHRONIZE
    PACKET_FLAG_FROM_INCLUDED) PACKET_FLAG_SIGNATURE_INCLUDED)
    PACKET_FLAG_MAX_PACKET_SIZE_INCLUDED
  if isNoAck then Nat.lor f PACKET_FLAG_NO_ACK else f

/-- The `ack Through` field written by `Send` (lines 247-251): the
`if (isNoAck)` / `else` branches as they appear in the source. -/
def sendAckField (isNoAck : Bool) (s : StreamState) : Nat :=
  if isNoAck then toUInt32 s.lastReceived else 0

/-- Payload length of the initial packet: `STREAMING_MTU` minus the header and
option block written in lines 241-274 (16 bytes of IDs/seq/ack, NACK count,
resend delay, flags, options size, identity, max packet size, signature). -/
def initialSentLen (s : StreamState) (buf : List Nat) : Nat :=
  min buf.length (STREAMING_MTU - (24 + s.identityLen + s.signatureLen))

/-- Payload length of a follow-on packet: `STREAMING_MTU` minus the 22 header
bytes written in lines 241-289. -/
def followSentLen (buf : List Nat) : Nat :=
  min buf.length (STREAMING_MTU - 22)

/-- Initial packet of `Send` (lines 255-282): SYN flag set plus identity,
max packet size and signature options. -/
def initialWire (isNoAck : Bool) (s : StreamState) (buf : List Nat) : WirePacket :=
  { sendStreamID := s.sendStreamID, recvStreamID := s.recvStreamID,
    seqn := s.sequenceNumber % 4294967296,
    ackThrough := sendAckField isNoAck s,
    flags := initialFlags isNoAck,
    optionsSize := s.identityLen + s.signatureLen + 2,
    payload := buf.take (initialSentLen s buf) }

/-- Follow-on packet of `Send` (lines 283-296): no flags, no options. -/
def followWire (isNoAck : Bool) (s : StreamState) (buf : List Nat) : WirePacket :=
  { sendStreamID := s.sendStreamID, recvStreamID := s.recvStreamID,
    seqn := s.sequenceNumber % 4294967296,
    ackThrough := sendAckField isNoAck s,
    flags := 0, optionsSize := 0,
    payload := buf.take (followSentLen buf) }

/-- State change of emitting the initial packet through the posted
`SendPacket`: `m_IsOpen` becomes true, the sequence number is consumed, the
packet is sent and retained in `m_SentPackets`. -/
def emitInitial (isNoAck : Bool) (s : StreamState) (buf : List Nat) : StreamState :=
  { s with
    isOpen := true
    sequenceNumber := (s.sequenceNumber + 1) % 4294967296
    sentWire := s.sentWire ++ [initialWire isNoAck s buf]
    sentPackets := insertSent (initialWire isNoAck s buf) s.sentPackets }

/-- State change of emitting a follow-on packet. -/
def emitFollow (isNoAck : Bool) (s : StreamState) (buf : List Nat) : StreamState :=
  { s with
    sequenceNumber := (s.sequenceNumber + 1) % 4294967296
    sentWire := s.sentWire ++ [followWire isNoAck s buf]
    sentPackets := insertSent (followWire isNoAck s buf) s.sentPackets }

def sendLoop (isNoAck : Bool) : Nat → StreamState → List Nat → StreamState × Nat
  | 0, s, buf => (s, buf.length)
  | fuel + 1, s, buf =>
    if s.isOpen = false ∨ 0 < buf.length then
      if s.isOpen = false then
        sendLoop isNoAck fuel (emitInitial isNoAck s buf)
          (buf.drop (initialSentLen s buf))
      else
        sendLoop isNoAck fuel (emitFollow isNoAck s buf)
          (buf.drop (followSentLen buf))
    else (s, buf.length)

/-- `Stream::Send` entry: `isNoAck` is computed once, before the loop. -/
def streamSend (s : StreamState) (buf : List Nat) : StreamState × Nat :=
  sendLoop (decide (s.lastReceived < 0)) (buf.length + 1) s buf

/-- `Stream::UpdateCurrentRemoteLease` (Streaming.cpp lines 485-508): the lease
choice involves netdb and the RNG; only the fact that a re-pick happened is
observable to the claims. -/
def updateCurrentRemoteLease (s : StreamState) : StreamState :=
  { s with leasePicks := s.leasePicks + 1 }

/-- First two statements of `Stream::HandleNextPacket` (lines 58-62): adopt
the peer's receive stream ID when ours is unset, and process the ACK unless
the packet is flagged NO_ACK. -/
def preprocess (s : StreamState) (p : Packet) : StreamState :=
  let s := if s.sendStreamID = 0 then
      { s with sendStreamID := p.receiveStreamID } else s
  if !p.isNoAck then processAck s p else s

/-- In-sequence branch of `HandleNextPacket` (lines 75-100): process the
packet, drain the saved set, then either quick-ack (if open) or reply to a
SYN with `Send (nullptr, 0)`. -/
def handleInOrder (s : StreamState) (p : Packet) : StreamState :=
  let s := processPacket s p
  let s := drainSaved s s.savedPackets
  if s.isOpen then sendQuickAck s
  else if p.isSyn then (streamSend s []).1 -- SYN reply, also opens the stream
  else s

/-- Duplicate branch of `HandleNextPacket` (lines 103-111): drop the current
outbound tunnel, re-pick the lease, resend the ack, drop the packet. -/
def handleDuplicate (s : StreamState) : StreamState :=
  sendQuickAck (updateCurrentRemoteLease { s with tunnelOk := false })

/-- `Stream::HandleNextPacket` (Streaming.cpp lines 56-119). -/
def handleNextPacket (s : StreamState) (p : Packet) : StreamState :=
  let s := preprocess s p
  let receivedSeqn := toInt32 p.seqn
  if receivedSeqn = 0 ∧ p.isSyn = false then
    s -- plain ack, packet dropped
  else if p.isSyn = true ∨ receivedSeqn = s.lastReceived + 1 then
    handleInOrder s p
  else if receivedSeqn ≤ s.lastReceived then
    handleDuplicate s
  else
    { s with savedPackets := insertSaved p s.savedPackets }

/-- `Stream::ConcatenatePackets` (Streaming.cpp lines 366-383), on the receive
queue: returns the bytes copied into a buffer of capacity `len` and the
remaining queue.  A packet only partially consumed keeps its tail at the front
of the queue (its `offset` advanced). -/
def concatGo (len : Nat) : List (List Nat) → List Nat × List (List Nat)
  | [] => ([], [])
  | h :: t =>
    if len = 0 then ([], h :: t)
    else
      let l := min h.length len
      let htail := h.drop l
      if htail = [] then
        let r := concatGo (len - l) t
        (h.take l ++ r.1, r.2)
      else (h.take l, htail :: t)

def concatenatePackets (s : StreamState) (len : Nat) :
    List Nat × StreamState :=
  let r := concatGo len s.receiveQueue
  (r.1, { s with receiveQueue := r.2 })

def runStream (s : StreamState) (ps : List Packet) : StreamState :=
  ps.foldl handleNextPacket s

/-! ### Byte-level view of the signature option (Streaming.cpp lines 157-172)

`setRegion l start repl` models `memcpy (l + start, repl, repl.length)` and
`regionOf l start len` models reading `len` bytes at offset `start`. -/

def setRegion (l : List Nat) (start : Nat) (repl : List Nat) : List Nat :=
  l.take start ++ repl ++ l.drop (start + repl.length)

def regionOf (l : List Nat) (start len : Nat) : List Nat :=
  (l.drop start).take len

/-- Signature branch of `Stream::ProcessPacket` (Streaming.cpp lines 157-172):
copy the signature out of the option data, zero the field in place, run
`m_RemoteIdentity.Verify` (abstracted as `verify`) over the whole buffer, then
copy the saved signature back — the restore is executed on both the success
and the failure path (the failure path only calls `Close` and forces the CLOSE
flag, which does not touch the buffer). -/
def processPacketSignature (verify : List Nat → Bool) (buf : List Nat)
    (sigOffset sigLen : Nat) : List Nat × Bool :=
  let signature := regionOf buf sigOffset sigLen
  let zeroed := setRegion buf sigOffset (List.replicate sigLen 0)
  let ok := verify zeroed
  let restored := setRegion zeroed sigOffset signature
  (restored, ok)

theorem setRegion_restore (l : List Nat) (o n : Nat) (h : o + n ≤ l.length) :
    setRegion (setRegion l o (List.replicate n 0)) o (regionOf l o n) = l := by
  have ho : o ≤ l.length := le_trans (Nat.le_add_right o n) h
  have hto : (l.take o).length = o := List.length_take_of_le ho
  have hrep : (List.replicate n (0 : Nat)).length = n := List.length_replicate n 0
  have hreg : (regionOf l o n).length = n := by
    have : n ≤ l.length - o := Nat.le_sub_of_add_le (by omega)
    simp [regionOf, List.length_take, List.length_drop]
    omega
  have htake : (setRegion l o (List.replicate n 0)).take o = l.take o := by
    unfold setRegion
    rw [List.append_assoc, List.take_left' hto]
  have hdrop : (setRegion l o (List.replicate n 0)).drop (o + n) = l.drop (o + n) := by
    unfold setRegion
    rw [hrep]
    have hlen2 : (l.take o ++ List.replicate n (0 : Nat)).length = o + n := by
      simp [hto, hrep]
    rw [List.drop_left' hlen2]
  rw [setRegion, hreg, htake, hdrop]
  have hdd : (l.drop o).drop n = l.drop (o + n) := by
    rw [List.drop_drop, Nat.add_comm]
  calc l.take o ++ regionOf l o n ++ l.drop (o + n)
      = l.take o ++ ((l.drop o).take n ++ (l.drop o).drop n) := by
        rw [List.append_assoc, regionOf, hdd]
    _ = l.take o ++ l.drop o := by rw [List.take_append_drop]
    _ = l := List.take_append_drop o l

/-- Claim C9: for every packet carrying SIG_INCLUDED processed by
`Stream::ProcessPacket`, the packet buffer after processing is byte-for-byte
identical to the buffer before processing — the signature field is zeroed only
for the duration of the verification and restored afterwards, for any
verification outcome.  (`sigLen ≤ 256` mirrors the size of the local
`uint8_t signature[256]` staging array.) -/
theorem processPacketSignature_restores (verify : List Nat → Bool)
    (buf : List Nat) (sigOffset sigLen : Nat)
    (h : sigOffset + sigLen ≤ buf.length) (h256 : sigLen ≤ 256) :
    (processPacketSignature verify buf sigOffset sigLen).1 = buf := by
  unfold processPacketSignature
  exact setRegion_restore buf sigOffset sigLen h

theorem processPacketSignature_restores_witness :
    (4 + 3 ≤ ([10, 11, 12, 13, 14, 15, 16, 17, 18] : List Nat).length ∧ (3:Nat) ≤ 256) ∧
    (processPacketSignature (fun l => decide (l.length = 9))
      [10, 11, 12, 13, 14, 15, 16, 17, 18] 4 3).1 =
      [10, 11, 12, 13, 14, 15, 16, 17, 18] :=
  ⟨by decide, processPacketSignature_restores (fun l => decide (l.length = 9))
      [10, 11, 12, 13, 14, 15, 16, 17, 18] 4 3 (by decide) (by decide)⟩

end I2pd

namespace I2pd

/-! ### Field bookkeeping lemmas for the stream operations -/

@[simp] theorem preprocess_receiveQueue (s : StreamState) (p : Packet) :
    (preprocess s p).receiveQueue = s.receiveQueue := by
  unfold preprocess processAck; split <;> split <;> rfl

@[simp] theorem preprocess_lastReceived (s : StreamState) (p : Packet) :
    (preprocess s p).lastReceived = s.lastReceived := by
  unfold preprocess processAck; split <;> split <;> rfl

@[simp] theorem preprocess_savedPackets (s : StreamState) (p : Packet) :
    (preprocess s p).savedPackets = s.savedPackets := by
  unfold preprocess processAck; split <;> split <;> rfl

@[simp] theorem preprocess_isOpen (s : StreamState) (p : Packet) :
    (preprocess s p).isOpen = s.isOpen := by
  unfold preprocess processAck; split <;> split <;> rfl

@[simp] theorem sendQuickAck_receiveQueue (s : StreamState) :
    (sendQuickAck s).receiveQueue = s.receiveQueue := rfl

@[simp] theorem sendQuickAck_lastReceived (s : StreamState) :
    (sendQuickAck s).lastReceived = s.lastReceived := rfl

@[simp] theorem sendQuickAck_savedPackets (s : StreamState) :
    (sendQuickAck s).savedPackets = s.savedPackets := rfl

@[simp] theorem sendQuickAck_isOpen (s : StreamState) :
    (sendQuickAck s).isOpen = s.isOpen := rfl

@[simp] theorem handleDuplicate_receiveQueue (s : StreamState) :
    (handleDuplicate s).receiveQueue = s.receiveQueue := rfl

@[simp] theorem handleDuplicate_lastReceived (s : StreamState) :
    (handleDuplicate s).lastReceived = s.lastReceived := rfl

@[simp] theorem handleDuplicate_savedPackets (s : StreamState) :
    (handleDuplicate s).savedPackets = s.savedPackets := rfl

@[simp] theorem closeStream_receiveQueue (s : StreamState) :
    (closeStream s).receiveQueue = s.receiveQueue := by
  unfold closeStream; split <;> rfl

@[simp] theorem closeStream_lastReceived (s : StreamState) :
    (closeStream s).lastReceived = s.lastReceived := by
  unfold closeStream; split <;> rfl

@[simp] theorem closeStream_savedPackets (s : StreamState) :
    (closeStream s).savedPackets = s.savedPackets := by
  unfold closeStream; split <;> rfl

@[simp] theorem processPacket_lastReceived (s : StreamState) (p : Packet) :
    (processPacket s p).lastReceived = toInt32 p.seqn := by
  simp only [processPacket]; split_ifs <;> simp

@[simp] theorem processPacket_savedPackets (s : StreamState) (p : Packet) :
    (processPacket s p).savedPackets = s.savedPackets := by
  simp only [processPacket]; split_ifs <;> simp

theorem processPacket_receiveQueue (s : StreamState) (p : Packet) :
    (processPacket s p).receiveQueue =
      s.receiveQueue ++ (if p.payload ≠ [] then [p.payload] else []) := by
  simp only [processPacket]; split_ifs <;> simp

end I2pd

namespace I2pd

/-! ### Lemmas about `Stream::Send` -/

theorem sendLoop_open_nil (b : Bool) (fuel : Nat) (s : StreamState)
    (h : s.isOpen = true) : sendLoop b fuel s [] = (s, 0) := by
  cases fuel with
  | zero => simp [sendLoop]
  | succ n => simp [sendLoop, h]

@[simp] theorem emitInitial_isOpen (b : Bool) (s : StreamState) (buf : List Nat) :
    (emitInitial b s buf).isOpen = true := rfl

@[simp] theorem emitInitial_identityLen (b : Bool) (s : StreamState) (buf : List Nat) :
    (emitInitial b s buf).identityLen = s.identityLen := rfl

@[simp] theorem emitInitial_signatureLen (b : Bool) (s : StreamState) (buf : List Nat) :
    (emitInitial b s buf).signatureLen = s.signatureLen := rfl

@[simp] theorem emitFollow_isOpen (b : Bool) (s : StreamState) (buf : List Nat) :
    (emitFollow b s buf).isOpen = s.isOpen := rfl

@[simp] theorem emitFollow_identityLen (b : Bool) (s : StreamState) (buf : List Nat) :
    (emitFollow b s buf).identityLen = s.identityLen := rfl

@[simp] theorem emitFollow_signatureLen (b : Bool) (s : StreamState) (buf : List Nat) :
    (emitFollow b s buf).signatureLen = s.signatureLen := rfl

theorem sendLoop_initial_step (b : Bool) (n : Nat) (s : StreamState)
    (buf : List Nat) (ho : s.isOpen = false) :
    sendLoop b (n + 1) s buf =
      sendLoop b n (emitInitial b s buf) (buf.drop (initialSentLen s buf)) := by
  simp [sendLoop, ho]

theorem sendLoop_follow_step (b : Bool) (n : Nat) (s : StreamState)
    (buf : List Nat) (ho : s.isOpen = true) (hpos : 0 < buf.length) :
    sendLoop b (n + 1) s buf =
      sendLoop b n (emitFollow b s buf) (buf.drop (followSentLen buf)) := by
  simp [sendLoop, ho, hpos]

/-- Payload-assembly behaviour of the `Send` loop: the loop always drains the
whole input (so the C++ `return len` returns 0), emits packets whose payloads
concatenate back to the input, emits nothing for an open stream with empty
input, and exactly one packet carrying the initial flag set for a not-yet-open
stream with empty input.  The `24 + identityLen + signatureLen < STREAMING_MTU`
hypothesis states that the header of the initial packet fits the MTU, which
holds for real identities (387 + 40 option bytes) and keeps the `size_t`
subtraction `STREAMING_MTU - size` in the source from wrapping. -/
theorem sendLoop_emits (b : Bool) : ∀ (fuel : Nat) (s : StreamState) (buf : List Nat),
    buf.length < fuel → 24 + s.identityLen + s.signatureLen < STREAMING_MTU →
    ∃ new : List WirePacket,
      (sendLoop b fuel s buf).1.sentWire = s.sentWire ++ new ∧
      (new.map WirePacket.payload).flatten = buf ∧
      (sendLoop b fuel s buf).2 = 0 ∧
      (s.isOpen = true → buf = [] → new = []) ∧
      (s.isOpen = false → buf = [] →
        ∃ w, new = [w] ∧ w.flags = initialFlags b) := by
  intro fuel
  induction fuel with
  | zero => intro s buf h _; omega
  | succ n ih =>
    intro s buf hlen hmtu
    by_cases ho : s.isOpen = true
    · by_cases hb : buf = []
      · subst hb
        refine ⟨[], ?_, ?_, ?_, ?_, ?_⟩ <;>
          simp [sendLoop_open_nil b _ s ho, ho]
      · -- follow-on iteration
        have hpos : 0 < buf.length := List.length_pos.mpr hb
        have hstep := sendLoop_follow_step b n s buf ho hpos
        have hsent1 : 1 ≤ followSentLen buf := by
          unfold followSentLen STREAMING_MTU
          omega
        have hlen2 : (buf.drop (followSentLen buf)).length < n := by
          rw [List.length_drop]
          omega
        have hmtu2 : 24 + (emitFollow b s buf).identityLen +
            (emitFollow b s buf).signatureLen < STREAMING_MTU := by
          simpa using hmtu
        obtain ⟨new, h1, h2, h3, _h4, _h5⟩ := ih (emitFollow b s buf)
          (buf.drop (followSentLen buf)) hlen2 hmtu2
        refine ⟨followWire b s buf :: new, ?_, ?_, ?_, ?_, ?_⟩
        · rw [hstep, h1]
          simp [emitFollow]
        · simp only [List.map_cons, List.flatten_cons, h2, followWire]
          exact List.take_append_drop _ buf
        · rw [hstep]; exact h3
        · intro _ hbe; exact absurd hbe hb
        · intro hfo; rw [ho] at hfo; cases hfo
    · -- initial iteration
      have ho' : s.isOpen = false := by
        cases hof : s.isOpen
        · rfl
        · exact absurd hof ho
      have hstep := sendLoop_initial_step b n s buf ho'
      by_cases hb : buf = []
      · subst hb
        rw [hstep, List.drop_nil]
        rw [sendLoop_open_nil b n _ (emitInitial_isOpen b s [])]
        refine ⟨[initialWire b s []], ?_, ?_, ?_, ?_, ?_⟩
        · simp [emitInitial]
        · simp [initialWire]
        · simp
        · intro hoo; rw [ho'] at hoo; cases hoo
        · intro _ _; exact ⟨_, rfl, rfl⟩
      · have hpos : 0 < buf.length := List.length_pos.mpr hb
        have hcap : 1 ≤ STREAMING_MTU - (24 + s.identityLen + s.signatureLen) := by
          unfold STREAMING_MTU at hmtu ⊢
          omega
        have hsent1 : 1 ≤ initialSentLen s buf := by
          unfold initialSentLen
          omega
        have hlen2 : (buf.drop (initialSentLen s buf)).length < n := by
          rw [List.length_drop]
          omega
        have hmtu2 : 24 + (emitInitial b s buf).identityLen +
            (emitInitial b s buf).signatureLen < STREAMING_MTU := by
          simpa using hmtu
        obtain ⟨new, h1, h2, h3, _h4, _h5⟩ := ih (emitInitial b s buf)
          (buf.drop (initialSentLen s buf)) hlen2 hmtu2
        refine ⟨initialWire b s buf :: new, ?_, ?_, ?_, ?_, ?_⟩
        · rw [hstep, h1]
          simp [emitInitial]
        · simp only [List.map_cons, List.flatten_cons, h2, initialWire]
          exact List.take_append_drop _ buf
        · rw [hstep]; exact h3
        · intro hoo; rw [ho'] at hoo; cases hoo
        · intro _ hbe; exact absurd hbe hb

theorem initialFlags_syn (b : Bool) :
    Nat.land (initialFlags b) PACKET_FLAG_SYNCHRONIZE ≠ 0 := by
  cases b <;> decide

/-- Claim C10: `Stream::Send (buf, len)` always returns 0 after packetizing
all `len` input bytes; when the stream is already open and `len = 0` it emits
no packet, and when the stream is not yet open it emits exactly one packet
carrying the SYNCHRONIZE flag even for `len = 0`. -/
theorem send_returns_zero_spec (s : StreamState) (buf : List Nat)
    (h : 24 + s.identityLen + s.signatureLen < STREAMING_MTU) :
    (streamSend s buf).2 = 0 ∧
    ∃ new : List WirePacket,
      (streamSend s buf).1.sentWire = s.sentWire ++ new ∧
      (new.map WirePacket.payload).flatten = buf ∧
      (s.isOpen = true → buf = [] → new = []) ∧
      (s.isOpen = false → buf = [] →
        ∃ w, new = [w] ∧ Nat.land w.flags PACKET_FLAG_SYNCHRONIZE ≠ 0) := by
  obtain ⟨new, h1, h2, h3, h4, h5⟩ :=
    sendLoop_emits (decide (s.lastReceived < 0)) (buf.length + 1) s buf
      (Nat.lt_succ_self _) h
  refine ⟨h3, new, h1, h2, h4, ?_⟩
  intro hof hbe
  obtain ⟨w, hw, hflags⟩ := h5 hof hbe
  exact ⟨w, hw, hflags ▸ initialFlags_syn _⟩

theorem send_returns_zero_spec_witness :
    (24 + 387 + 40 < STREAMING_MTU) ∧
      (streamSend (initialIncomingStream 7 387 40) [1, 2, 3]).2 = 0 :=
  ⟨by decide,
   (send_returns_zero_spec (initialIncomingStream 7 387 40) [1, 2, 3]
      (by decide)).1⟩

end I2pd

namespace I2pd

/-! ### Claim C6: the ackThrough field of sent packets -/

/-- Open stream that has received everything through sequence number 5. -/
def ackBugState : StreamState :=
  { initialIncomingStream 7 387 40 with
    isOpen := true
    lastReceived := 5
    sendStreamID := 1 }

/-- Claim C6 (evaluation at the failing input): `Send` writes
`m_LastReceivedSequenceNumber` into ackThrough only in the NO_ACK branch and 0
otherwise — the two branches of `if (isNoAck)` (Streaming.cpp lines 247-250)
are swapped relative to the claim.  An open stream with `lastReceived = 5`
emits a packet with ackThrough 0 (the claim requires 5), and the NO_ACK first
packet of a fresh stream emits ackThrough `htobe32(-1) = 0xFFFFFFFF` (the
claim requires 0).  The sequence-number half of the claim does hold: the two
consecutive sends below consume sequence numbers 0 and 1. -/
theorem send_ackThrough_swapped_eval :
    ((streamSend ackBugState [9, 9, 9]).1.sentWire.map WirePacket.ackThrough = [0]
      ∧ toUInt32 ackBugState.lastReceived = 5)
    ∧ (streamSend (initialIncomingStream 7 387 40) []).1.sentWire.map
        WirePacket.ackThrough = [4294967295]
    ∧ ((streamSend (streamSend ackBugState [9]).1 [9]).1.sentWire.map
        WirePacket.seqn = [0, 1]) := by
  decide

/-! ### Claim C7: duplicate delivery -/

/-- A SYN packet (seq 0, 1 payload byte) as `HandleNextPacket` sees it. -/
def dupSynPacket : Packet :=
  { receiveStreamID := 11, seqn := 0, ackThrough := 0, nacks := [],
    isSyn := true, isClose := false, isNoAck := true, hasSig := false,
    sigOk := true, payload := [1] }

/-- Claim C7 counterexample: delivering the same SYN packet twice is not
idempotent.  The in-order test `isSyn || receivedSeqn == last+1`
(Streaming.cpp line 75) re-admits a SYN regardless of
`m_LastReceivedSequenceNumber`, so the payload is queued a second time and the
consumer sees it twice. -/
theorem duplicate_syn_not_idempotent :
    (runStream (initialIncomingStream 7 387 40)
        [dupSynPacket, dupSynPacket]).receiveQueue
      ≠ (runStream (initialIncomingStream 7 387 40) [dupSynPacket]).receiveQueue
    ∧ (concatenatePackets (runStream (initialIncomingStream 7 387 40)
          [dupSynPacket, dupSynPacket]) 8).1
      ≠ (concatenatePackets (runStream (initialIncomingStream 7 387 40)
          [dupSynPacket]) 8).1
    ∧ (runStream (initialIncomingStream 7 387 40)
          [dupSynPacket, dupSynPacket]).lastReceived
      = (runStream (initialIncomingStream 7 387 40) [dupSynPacket]).lastReceived := by
  decide

theorem toInt32_of_lt (n : Nat) (h : n < 2147483648) : toInt32 n = (n : Int) := by
  simp [toInt32, h]

theorem insertSaved_idem (p : Packet) (l : List Packet) :
    insertSaved p (insertSaved p l) = insertSaved p l := by
  induction l with
  | nil => simp [insertSaved]
  | cons q rest ih =>
    by_cases h1 : p.seqn < q.seqn
    · simp [insertSaved, h1]
    · by_cases h2 : p.seqn = q.seqn
      · simp [insertSaved, h1, h2]
      · simp [insertSaved, h1, h2, ih]

@[simp] theorem emitInitial_receiveQueue (b : Bool) (s : StreamState) (buf : List Nat) :
    (emitInitial b s buf).receiveQueue = s.receiveQueue := rfl

@[simp] theorem emitInitial_savedPackets (b : Bool) (s : StreamState) (buf : List Nat) :
    (emitInitial b s buf).savedPackets = s.savedPackets := rfl

@[simp] theorem emitInitial_lastReceived (b : Bool) (s : StreamState) (buf : List Nat) :
    (emitInitial b s buf).lastReceived = s.lastReceived := rfl

@[simp] theorem emitFollow_receiveQueue (b : Bool) (s : StreamState) (buf : List Nat) :
    (emitFollow b s buf).receiveQueue = s.receiveQueue := rfl

@[simp] theorem emitFollow_savedPackets (b : Bool) (s : StreamState) (buf : List Nat) :
    (emitFollow b s buf).savedPackets = s.savedPackets := rfl

@[simp] theorem emitFollow_lastReceived (b : Bool) (s : StreamState) (buf : List Nat) :
    (emitFollow b s buf).lastReceived = s.lastReceived := rfl

/-- `Send` never touches the receive-side state. -/
theorem sendLoop_core_fields (b : Bool) : ∀ (fuel : Nat) (s : StreamState)
    (buf : List Nat),
    (sendLoop b fuel s buf).1.receiveQueue = s.receiveQueue ∧
    (sendLoop b fuel s buf).1.savedPackets = s.savedPackets ∧
    (sendLoop b fuel s buf).1.lastReceived = s.lastReceived := by
  intro fuel
  induction fuel with
  | zero => intro s buf; exact ⟨rfl, rfl, rfl⟩
  | succ n ih =>
    intro s buf
    simp only [sendLoop]
    split_ifs with h1 h2
    · simpa using ih (emitInitial b s buf) (buf.drop (initialSentLen s buf))
    · simpa using ih (emitFollow b s buf) (buf.drop (followSentLen buf))
    · exact ⟨rfl, rfl, rfl⟩

theorem streamSend_core_fields (s : StreamState) (buf : List Nat) :
    (streamSend s buf).1.receiveQueue = s.receiveQueue ∧
    (streamSend s buf).1.savedPackets = s.savedPackets ∧
    (streamSend s buf).1.lastReceived = s.lastReceived :=
  sendLoop_core_fields _ _ s buf

/-- The receive-side result of the in-order branch is that of the
process-then-drain composition; the trailing quick ack or SYN reply does not
change it. -/
theorem handleInOrder_core (s : StreamState) (p : Packet) :
    (handleInOrder s p).receiveQueue =
      (drainSaved (processPacket s p) (processPacket s p).savedPackets).receiveQueue ∧
    (handleInOrder s p).lastReceived =
      (drainSaved (processPacket s p) (processPacket s p).savedPackets).lastReceived ∧
    (handleInOrder s p).savedPackets =
      (drainSaved (processPacket s p) (processPacket s p).savedPackets).savedPackets := by
  simp only [handleInOrder]
  split_ifs with h1 h2
  · exact ⟨rfl, rfl, rfl⟩
  · obtain ⟨a, b, c⟩ := streamSend_core_fields
      (drainSaved (processPacket s p) (processPacket s p).savedPackets) []
    exact ⟨a, c, b⟩
  · exact ⟨rfl, rfl, rfl⟩

/-- Draining the saved set only moves `m_LastReceivedSequenceNumber` upward
(by consuming consecutive saved sequence numbers), as long as the state is in
the int32-safe range. -/
theorem drainSaved_lastReceived_ge : ∀ (saved : List Packet) (s : StreamState),
    (∀ q ∈ saved, q.seqn < 2147483648) → 0 ≤ s.lastReceived →
    s.lastReceived < 2147483648 →
    s.lastReceived ≤ (drainSaved s saved).lastReceived ∧
    (drainSaved s saved).lastReceived < 2147483648 := by
  intro saved
  induction saved with
  | nil =>
    intro s _ _ h1
    exact ⟨by simp [drainSaved], by simpa [drainSaved] using h1⟩
  | cons q rest ih =>
    intro s hq h0 h1
    by_cases hc : q.seqn = toUInt32 (s.lastReceived + 1)
    · have hqlt : q.seqn < 2147483648 := hq q (List.mem_cons_self q rest)
      have hstep : drainSaved s (q :: rest) = drainSaved (processPacket s q) rest := by
        simp [drainSaved, hc]
      have hlast : (processPacket s q).lastReceived = (q.seqn : Int) := by
        rw [processPacket_lastReceived, toInt32_of_lt q.seqn hqlt]
      have hrec := ih (processPacket s q)
        (fun r hr => hq r (List.mem_cons_of_mem q hr))
        (by rw [hlast]; exact Int.natCast_nonneg _)
        (by rw [hlast]; exact_mod_cast hqlt)
      constructor
      · rw [hstep]
        refine le_trans ?_ hrec.1
        rw [hlast]
        -- q.seqn = toUInt32 (last+1) with 0 ≤ last+1 < 2^32 gives q.seqn = last+1
        have hpos1 : (0:Int) ≤ s.lastReceived + 1 := by omega
        have hlt1 : s.lastReceived + 1 < 4294967296 := by omega
        have : (q.seqn : Int) = s.lastReceived + 1 := by
          rw [hc]
          unfold toUInt32
          rw [Int.emod_eq_of_lt hpos1 hlt1, Int.toNat_of_nonneg hpos1]
        omega
      · rw [hstep]; exact hrec.2
    · have hstep : drainSaved s (q :: rest) = { s with savedPackets := q :: rest } := by
        simp [drainSaved, hc]
      rw [hstep]
      exact ⟨le_refl _, h1⟩

end I2pd

namespace I2pd

theorem handleNextPacket_eq_inOrder (s : StreamState) (p : Packet)
    (h0 : ¬(toInt32 p.seqn = 0 ∧ p.isSyn = false))
    (h1 : p.isSyn = true ∨ toInt32 p.seqn = s.lastReceived + 1) :
    handleNextPacket s p = handleInOrder (preprocess s p) p := by
  have h1' : p.isSyn = true ∨ toInt32 p.seqn = (preprocess s p).lastReceived + 1 := by
    rw [preprocess_lastReceived]; exact h1
  simp only [handleNextPacket]
  rw [if_neg h0, if_pos h1']

theorem handleNextPacket_eq_dup (s : StreamState) (p : Packet)
    (h0 : ¬(toInt32 p.seqn = 0 ∧ p.isSyn = false))
    (h1 : ¬(p.isSyn = true ∨ toInt32 p.seqn = s.lastReceived + 1))
    (h2 : toInt32 p.seqn ≤ s.lastReceived) :
    handleNextPacket s p = handleDuplicate (preprocess s p) := by
  have h1' : ¬(p.isSyn = true ∨ toInt32 p.seqn = (preprocess s p).lastReceived + 1) := by
    rw [preprocess_lastReceived]; exact h1
  have h2' : toInt32 p.seqn ≤ (preprocess s p).lastReceived := by
    rw [preprocess_lastReceived]; exact h2
  simp only [handleNextPacket]
  rw [if_neg h0, if_neg h1', if_pos h2']

theorem handleNextPacket_eq_save (s : StreamState) (p : Packet)
    (h0 : ¬(toInt32 p.seqn = 0 ∧ p.isSyn = false))
    (h1 : ¬(p.isSyn = true ∨ toInt32 p.seqn = s.lastReceived + 1))
    (h2 : ¬toInt32 p.seqn ≤ s.lastReceived) :
    handleNextPacket s p =
      { preprocess s p with
        savedPackets := insertSaved p (preprocess s p).savedPackets } := by
  have h1' : ¬(p.isSyn = true ∨ toInt32 p.seqn = (preprocess s p).lastReceived + 1) := by
    rw [preprocess_lastReceived]; exact h1
  have h2' : ¬toInt32 p.seqn ≤ (preprocess s p).lastReceived := by
    rw [preprocess_lastReceived]; exact h2
  simp only [handleNextPacket]
  rw [if_neg h0, if_neg h1', if_neg h2']

/-- Claim C7 (amended): delivering the same non-SYN data packet (sequence
number in `[1, 2^31)`, the int32-safe range also required of the saved set)
twice leaves the consumer-visible receive queue, `lastReceivedSequenceNumber`
and the saved set identical to a single delivery: the second copy is dropped
by the duplicate branch, absorbed by the no-op `std::set` insert, or — if the
first copy was a pure duplicate already — handled exactly as the first.  A SYN
packet is excluded: see the counterexample. -/
theorem duplicate_nonSyn_idempotent (s : StreamState) (p : Packet)
    (hsyn : p.isSyn = false) (hpos : 0 < p.seqn) (hlt : p.seqn < 2147483648)
    (hsave : ∀ q ∈ s.savedPackets, q.seqn < 2147483648) :
    (handleNextPacket (handleNextPacket s p) p).receiveQueue
        = (handleNextPacket s p).receiveQueue
    ∧ (handleNextPacket (handleNextPacket s p) p).lastReceived
        = (handleNextPacket s p).lastReceived
    ∧ (handleNextPacket (handleNextPacket s p) p).savedPackets
        = (handleNextPacket s p).savedPackets := by
  have hrs : toInt32 p.seqn = (p.seqn : Int) := toInt32_of_lt p.seqn hlt
  have h0 : ¬(toInt32 p.seqn = 0 ∧ p.isSyn = false) := by
    rw [hrs]
    rintro ⟨hz, -⟩
    have : p.seqn = 0 := by exact_mod_cast hz
    omega
  by_cases hA : toInt32 p.seqn = s.lastReceived + 1
  · -- first delivery is processed in-order; its lastReceived reaches p.seqn
    have e1 : handleNextPacket s p = handleInOrder (preprocess s p) p :=
      handleNextPacket_eq_inOrder s p h0 (Or.inr hA)
    have hcore := handleInOrder_core (preprocess s p) p
    set d := drainSaved (processPacket (preprocess s p) p)
        (processPacket (preprocess s p) p).savedPackets with hd
    have hplast : (processPacket (preprocess s p) p).lastReceived = (p.seqn : Int) := by
      rw [processPacket_lastReceived, hrs]
    have hpsaved : (processPacket (preprocess s p) p).savedPackets = s.savedPackets := by
      rw [processPacket_savedPackets, preprocess_savedPackets]
    have hge : (p.seqn : Int) ≤ d.lastReceived := by
      have := drainSaved_lastReceived_ge
        ((processPacket (preprocess s p) p).savedPackets)
        (processPacket (preprocess s p) p)
        (by rw [hpsaved]; exact hsave)
        (by rw [hplast]; exact Int.natCast_nonneg _)
        (by rw [hplast]; exact_mod_cast hlt)
      rw [hplast] at this
      exact this.1
    have hlast1 : (p.seqn : Int) ≤ (handleNextPacket s p).lastReceived := by
      rw [e1, hcore.2.1]
      exact hge
    -- second delivery hits the duplicate branch
    have h1b : ¬(p.isSyn = true ∨
        toInt32 p.seqn = (handleNextPacket s p).lastReceived + 1) := by
      rw [hrs]
      rintro (hs | he)
      · rw [hsyn] at hs; cases hs
      · omega
    have h2b : toInt32 p.seqn ≤ (handleNextPacket s p).lastReceived := by
      rw [hrs]; exact hlast1
    have e2 : handleNextPacket (handleNextPacket s p) p =
        handleDuplicate (preprocess (handleNextPacket s p) p) :=
      handleNextPacket_eq_dup (handleNextPacket s p) p h0 h1b h2b
    rw [e2]
    refine ⟨?_, ?_, ?_⟩ <;> simp
  · by_cases hB : toInt32 p.seqn ≤ s.lastReceived
    · -- first delivery is already a duplicate
      have h1a : ¬(p.isSyn = true ∨ toInt32 p.seqn = s.lastReceived + 1) := by
        rintro (hs | he)
        · rw [hsyn] at hs; cases hs
        · exact hA he
      have e1 : handleNextPacket s p = handleDuplicate (preprocess s p) :=
        handleNextPacket_eq_dup s p h0 h1a hB
      have hl1 : (handleNextPacket s p).lastReceived = s.lastReceived := by
        rw [e1]; simp
      have h1b : ¬(p.isSyn = true ∨
          toInt32 p.seqn = (handleNextPacket s p).lastReceived + 1) := by
        rw [hl1]; exact h1a
      have h2b : toInt32 p.seqn ≤ (handleNextPacket s p).lastReceived := by
        rw [hl1]; exact hB
      have e2 : handleNextPacket (handleNextPacket s p) p =
          handleDuplicate (preprocess (handleNextPacket s p) p) :=
        handleNextPacket_eq_dup (handleNextPacket s p) p h0 h1b h2b
      rw [e2]
      refine ⟨?_, ?_, ?_⟩ <;> simp
    · -- first delivery is buffered out of order
      have h1a : ¬(p.isSyn = true ∨ toInt32 p.seqn = s.lastReceived + 1) := by
        rintro (hs | he)
        · rw [hsyn] at hs; cases hs
        · exact hA he
      have e1 : handleNextPacket s p =
          { preprocess s p with
            savedPackets := insertSaved p (preprocess s p).savedPackets } :=
        handleNextPacket_eq_save s p h0 h1a hB
      have hl1 : (handleNextPacket s p).lastReceived = s.lastReceived := by
        rw [e1]; simp
      have h1b : ¬(p.isSyn = true ∨
          toInt32 p.seqn = (handleNextPacket s p).lastReceived + 1) := by
        rw [hl1]; exact h1a
      have h2b : ¬toInt32 p.seqn ≤ (handleNextPacket s p).lastReceived := by
        rw [hl1]; exact hB
      have e2 : handleNextPacket (handleNextPacket s p) p =
          { preprocess (handleNextPacket s p) p with
            savedPackets :=
              insertSaved p (preprocess (handleNextPacket s p) p).savedPackets } :=
        handleNextPacket_eq_save (handleNextPacket s p) p h0 h1b h2b
      rw [e2]
      refine ⟨by simp, by simp, ?_⟩
      have hs2 : (preprocess (handleNextPacket s p) p).savedPackets =
          insertSaved p (preprocess s p).savedPackets := by
        rw [preprocess_savedPackets, e1]
      rw [hs2, e1, insertSaved_idem]

/-- Non-SYN data packet with sequence number 1 used by the C7 witness. -/
def dupDataPacket : Packet :=
  { receiveStreamID := 11, seqn := 1, ackThrough := 0, nacks := [],
    isSyn := false, isClose := false, isNoAck := true, hasSig := false,
    sigOk := true, payload := [3] }

theorem duplicate_nonSyn_idempotent_witness :
    (dupDataPacket.isSyn = false ∧ 0 < dupDataPacket.seqn
      ∧ dupDataPacket.seqn < 2147483648
      ∧ ∀ q ∈ (initialIncomingStream 7 387 40).savedPackets,
          q.seqn < 2147483648)
    ∧ (handleNextPacket (handleNextPacket (initialIncomingStream 7 387 40)
          dupDataPacket) dupDataPacket).receiveQueue
        = (handleNextPacket (initialIncomingStream 7 387 40)
            dupDataPacket).receiveQueue
    ∧ (handleNextPacket (handleNextPacket (initialIncomingStream 7 387 40)
          dupDataPacket) dupDataPacket).lastReceived
        = (handleNextPacket (initialIncomingStream 7 387 40)
            dupDataPacket).lastReceived
    ∧ (handleNextPacket (handleNextPacket (initialIncomingStream 7 387 40)
          dupDataPacket) dupDataPacket).savedPackets
        = (handleNextPacket (initialIncomingStream 7 387 40)
            dupDataPacket).savedPackets :=
  ⟨⟨by decide, by decide, by decide, by simp [initialIncomingStream]⟩,
   duplicate_nonSyn_idempotent (initialIncomingStream 7 387 40) dupDataPacket
     (by decide) (by decide) (by decide) (by simp [initialIncomingStream])⟩

end I2pd

namespace I2pd

/-! ### NetDb data model (NetDb.cpp / NetDb.h)

`RouterRecord` models the flags and timestamp of a `RouterInfo` that the
NetDb.cpp operations inspect (`IsFloodfill`, `IsUnreachable`/`SetUnreachable`,
`IsUpdated`/`SetUpdated`, `UsesIntroducer`, `GetTimestamp`); IdentHashes are
256-bit numbers modelled as `Nat`.  The maps `m_RouterInfos`/`m_LeaseSets`
(`std::map`) are association lists and `m_Floodfills` (`std::list`) a list of
the idents of the shared records. -/

structure RouterRecord where
  floodfill : Bool
  unreachable : Bool
  updated : Bool
  usesIntroducer : Bool
  timestamp : Nat
deriving DecidableEq

structure NetDbState where
  routerInfos : List (Nat × RouterRecord)
  floodfills : List Nat
deriving DecidableEq

/-- Modelled from the spec: `RouterInfo::Update` (RouterInfo.cpp is not among
the provided sources) accepts the new blob only if its timestamp is strictly
greater; the record is then marked updated so the next save pass writes it.
The capability flags of the stored record are taken as unchanged by an
update. -/
def updateRecord (old newRec : RouterRecord) : RouterRecord :=
  if old.timestamp < newRec.timestamp then
    { old with timestamp := newRec.timestamp, updated := true }
  else old

/-- `NetDb::AddRouterInfo (ident, buf, len)` (NetDb.cpp lines 208-241), on the
store: a known ident is updated in place; a new record is inserted and, when
its floodfill flag is set, appended to the floodfill list.  (The
requested-destination completion of lines 232-240 lives in the request model,
`manageRequests` below.) -/
def addRouterInfo (s : NetDbState) (ident : Nat) (r : RouterRecord) : NetDbState :=
  if (s.routerInfos.find? (fun e => e.1 == ident)).isSome then
    { s with
      routerInfos := s.routerInfos.map
        (fun e => if e.1 = ident then (e.1, updateRecord e.2 r) else e) }
  else
    { routerInfos := s.routerInfos ++ [(ident, r)]
      floodfills := if r.floodfill then s.floodfills ++ [ident] else s.floodfills }

/-- `NetDb::SetUnreachable` (NetDb.cpp lines 281-286): set the flag on the
record if present; the floodfill list is not touched. -/
def setUnreachable (s : NetDbState) (ident : Nat) (b : Bool) : NetDbState :=
  { s with
    routerInfos := s.routerInfos.map
      (fun e => if e.1 = ident then (e.1, { e.2 with unreachable := b }) else e) }

/-- One pass of the `for (auto it: m_RouterInfos)` loop of `NetDb::SaveUpdated`
(NetDb.cpp lines 400-436), carrying the floodfill list, the decremented
`total` and `deletedCount`.  `hasFile ident` models
`boost::filesystem::exists (GetFilePath ...)`.  Updated records are saved and
their flag cleared; otherwise expiry may mark the record unreachable
(introducer records after 1 hour, any record after 72 hours while `total`
exceeds 300), and unreachable records have their file deleted (counting into
`deletedCount`) and are removed from the floodfill list. -/
def expireCond (ts total : Nat) (r : RouterRecord) : Prop :=
  (r.usesIntroducer = true ∧ ts > r.timestamp + 3600000)
  ∨ (total > 300 ∧ ts > r.timestamp + 259200000)

instance (ts total : Nat) (r : RouterRecord) : Decidable (expireCond ts total r) := by
  unfold expireCond; exact inferInstance

/-- The record as it stands after the expiry check of the save pass: marked
unreachable when `expireCond` fires (NetDb.cpp lines 411-418). -/
def savePost (ts total : Nat) (r : RouterRecord) : RouterRecord :=
  if expireCond ts total r then { r with unreachable := true } else r

def saveGo (hasFile : Nat → Bool) (ts : Nat) :
    List (Nat × RouterRecord) → List Nat → Nat → Nat →
    List (Nat × RouterRecord) × List Nat × Nat
  | [], ffs, _total, deleted => ([], ffs, deleted)
  | (ident, r) :: rest, ffs, total, deleted =>
    if r.updated = true then
      let res := saveGo hasFile ts rest ffs total deleted
      ((ident, { r with updated := false }) :: res.1, res.2)
    else
      let total' := if expireCond ts total r then total - 1 else total
      let r' := savePost ts total r
      if r'.unreachable = true then
        let deleted' := if hasFile ident then deleted + 1 else deleted
        let ffs' := if r'.floodfill then ffs.filter (fun i => i ≠ ident) else ffs
        let res := saveGo hasFile ts rest ffs' total' deleted'
        ((ident, r') :: res.1, res.2)
      else
        let res := saveGo hasFile ts rest ffs total' deleted
        ((ident, r') :: res.1, res.2)

/-- `NetDb::SaveUpdated` (NetDb.cpp lines 376-452), file I/O elided: the loop
above followed by the cleanup that erases unreachable records from
`m_RouterInfos` — which runs only when at least one RouterInfo file was
actually deleted (`deletedCount > 0`). -/
def saveUpdated (hasFile : Nat → Bool) (ts : Nat) (s : NetDbState) : NetDbState :=
  let res := saveGo hasFile ts s.routerInfos s.floodfills s.routerInfos.length 0
  { routerInfos :=
      if res.2.2 > 0 then res.1.filter (fun e => e.2.unreachable = false)
      else res.1
    floodfills := res.2.1 }

/-- Claim C3 invariant, as sets of idents: the floodfill list holds exactly
the idents of the stored records whose floodfill flag is set and which are not
marked unreachable. -/
def floodfillInvariant (s : NetDbState) : Prop :=
  (∀ i ∈ s.floodfills, ∃ e ∈ s.routerInfos,
      e.1 = i ∧ e.2.floodfill = true ∧ e.2.unreachable = false)
  ∧ (∀ e ∈ s.routerInfos, e.2.floodfill = true → e.2.unreachable = false →
      e.1 ∈ s.floodfills)

instance floodfillInvariantDecidable (s : NetDbState) :
    Decidable (floodfillInvariant s) := by
  unfold floodfillInvariant
  exact inferInstance

/-- A reachable floodfill router known to the NetDb. -/
def c3Record : RouterRecord :=
  { floodfill := true, unreachable := false, updated := false,
    usesIntroducer := false, timestamp := 0 }

def c3State : NetDbState :=
  { routerInfos := [(7, c3Record)], floodfills := [7] }

/-- Claim C3 counterexample: `SetUnreachable` marks the record but leaves the
floodfill list untouched, so immediately after `SetUnreachable(ident, true)`
the list still contains a router that is marked unreachable — the invariant
fails until the next `SaveUpdated` pass repairs it (and `GetClosestFloodfill`
compensates with its own `!IsUnreachable` test). -/
theorem setUnreachable_breaks_floodfill_invariant :
    floodfillInvariant c3State
    ∧ (setUnreachable c3State 7 true).floodfills = c3State.floodfills
    ∧ ¬ floodfillInvariant (setUnreachable c3State 7 true) := by
  decide

/-! ### Claim C4: `NetDb::ManageLeaseSets` -/

structure LeaseSetRec where
  leases : List Nat
deriving DecidableEq

/-- Modelled from the spec: `LeaseSet::HasNonExpiredLeases` (LeaseSet.cpp is
not among the provided sources) — a LeaseSet is valid as long as at least one
lease has `endDate > now`; `leases` holds the endDates. -/
def hasNonExpiredLeases (now : Nat) (ls : LeaseSetRec) : Bool :=
  ls.leases.any (fun endDate => decide (now < endDate))

/-- `NetDb::ManageLeaseSets` (NetDb.cpp lines 858-871): the loop erases an
entry exactly when `it->second->HasNonExpiredLeases ()` returns true (next to
the comment claiming the opposite), keeping the rest. -/
def manageLeaseSets (now : Nat) (m : List (Nat × LeaseSetRec)) :
    List (Nat × LeaseSetRec) :=
  m.filter (fun e => !(hasNonExpiredLeases now e.2))

/-- Claim C4 (evaluation at the failing input): at time 100, a LeaseSet whose
only lease ends at 200 (still valid) is erased by `ManageLeaseSets`, while a
LeaseSet whose only lease ended at 50 (fully expired) is kept — the condition
on NetDb.cpp line 862 is inverted with respect to the claim and to the
adjacent source comment. -/
theorem manageLeaseSets_inverted_eval :
    manageLeaseSets 100 [(1, ⟨[200]⟩), (2, ⟨[50]⟩)] = [(2, ⟨[50]⟩)]
    ∧ hasNonExpiredLeases 100 ⟨[200]⟩ = true
    ∧ hasNonExpiredLeases 100 ⟨[50]⟩ = false := by
  decide

/-! ### Claim C5: `NetDb::AddLeaseSet` -/

/-- `NetDb::AddLeaseSet (ident, buf, len, from)` (NetDb.cpp lines 243-260):
the whole body is guarded by `if (!from)`, so a store that came through an
inbound tunnel (`fromTunnel = true`) is ignored, and a direct store updates a
known ident or inserts a new one.  `LeaseSet::Update` is modelled from the
spec as replacing the stored bytes. -/
def addLeaseSet (m : List (Nat × List Nat)) (ident : Nat) (buf : List Nat)
    (fromTunnel : Bool) : List (Nat × List Nat) :=
  if fromTunnel = false then
    if (m.find? (fun e => e.1 == ident)).isSome then
      m.map (fun e => if e.1 = ident then (e.1, buf) else e)
    else m ++ [(ident, buf)]
  else m

/-- Claim C5 counterexample: the claim says an absent `from` (unsolicited)
rejects the store and a present `from` accepts it; the code does exactly the
opposite on both sides of the gate. -/
theorem addLeaseSet_gate_inverted_counterexample :
    addLeaseSet [] 5 [1] false = [(5, [1])]
    ∧ addLeaseSet [] 5 [1] false ≠ []
    ∧ addLeaseSet [] 5 [1] true = [] := by
  decide

/-- Claim C5 (amended): `AddLeaseSet` ignores a store whose `from` tunnel is
present, leaving the map unchanged; when `from` is absent it inserts an
unknown key and updates a known one in place. -/
theorem addLeaseSet_spec (m : List (Nat × List Nat)) (ident : Nat)
    (buf : List Nat) :
    addLeaseSet m ident buf true = m
    ∧ ((∀ e ∈ m, e.1 ≠ ident) →
        addLeaseSet m ident buf false = m ++ [(ident, buf)])
    ∧ ((∃ e ∈ m, e.1 = ident) →
        addLeaseSet m ident buf false =
          m.map (fun e => if e.1 = ident then (e.1, buf) else e)) := by
  refine ⟨rfl, ?_, ?_⟩
  · intro habs
    have hnone : m.find? (fun e => e.1 == ident) = none := by
      rw [List.find?_eq_none]
      intro e he
      simpa using habs e he
    simp [addLeaseSet, hnone]
  · intro hex
    have hsome : (m.find? (fun e => e.1 == ident)).isSome := by
      rw [List.find?_isSome]
      obtain ⟨e, he, hh⟩ := hex
      exact ⟨e, he, by simpa using hh⟩
    simp [addLeaseSet, hsome]

theorem addLeaseSet_spec_witness :
    addLeaseSet [(3, [7])] 5 [1] true = [(3, [7])]
    ∧ (∀ e ∈ [((3 : Nat), [(7 : Nat)])], e.1 ≠ 5)
    ∧ addLeaseSet [(3, [7])] 5 [1] false = [(3, [7]), (5, [1])] :=
  ⟨(addLeaseSet_spec [(3, [7])] 5 [1]).1, by decide,
   (addLeaseSet_spec [(3, [7])] 5 [1]).2.1 (by decide)⟩

/-! ### Claim C8: `NetDb::ManageRequests` -/

/-- In-flight NetDb lookup (`RequestedDestination`, declared in NetDb.h and
described in the specification): target, exploratory flag, creation time in
seconds, excluded-peer set, and whether the one-shot completion callback
`m_RequestComplete` is still set. -/
structure NetDbRequest where
  destination : Nat
  isExploratory : Bool
  creationTime : Nat
  excludedPeers : List Nat
  hasCallback : Bool
deriving DecidableEq

inductive RequestEvent where
  | failCalled : Nat → RequestEvent
  | retrySent : Nat → Nat → RequestEvent
deriving DecidableEq

/-- `RequestedDestination::Fail` (NetDb.cpp lines 58-65): invoke the
completion callback with nothing, once. -/
def requestFail (r : NetDbRequest) : NetDbRequest × List RequestEvent :=
  if r.hasCallback then
    ({ r with hasCallback := false }, [RequestEvent.failCalled r.destination])
  else (r, [])

def insertExcluded (ff : Nat) (l : List Nat) : List Nat :=
  if ff ∈ l then l else l ++ [ff]

/-- `RequestedDestination::CreateRequestMessage` (NetDb.cpp lines 24-33):
inserts the chosen floodfill into the excluded set and resets the creation
time. -/
def createRequestMessage (ts ff : Nat) (r : NetDbRequest) : NetDbRequest :=
  { r with excludedPeers := insertExcluded ff r.excludedPeers, creationTime := ts }

/-- `NetDb::ManageRequests` (NetDb.cpp lines 873-920).  Returns the surviving
requests and the emitted events.  `nextFF dest excluded` models
`GetClosestFloodfill`; `outboundOk`/`inboundOk` the tunnel availability.  In
every `done` branch the source runs `delete it->second; erase (it)` without
calling `Fail`, so no `failCalled` event is ever emitted. -/
def manageRequests (ts : Nat) (outboundOk inboundOk : Bool)
    (nextFF : Nat → List Nat → Option Nat) :
    List NetDbRequest → List NetDbRequest × List RequestEvent
  | [] => ([], [])
  | r :: rest =>
    if r.isExploratory = false ∧ ts < r.creationTime + 60 then
      if ts > r.creationTime + 5 then
        if r.excludedPeers.length < 7 then
          match nextFF r.destination r.excludedPeers with
          | some ff =>
            if outboundOk = true ∧ inboundOk = true then
              let res := manageRequests ts outboundOk inboundOk nextFF rest
              (createRequestMessage ts ff r :: res.1,
               RequestEvent.retrySent r.destination ff :: res.2)
            else -- done: tunnels gone; deleted without Fail
              manageRequests ts outboundOk inboundOk nextFF rest
          | none => -- done: no more floodfills; deleted without Fail
            manageRequests ts outboundOk inboundOk nextFF rest
        else -- done: 7 attempts exhausted; deleted without Fail
          manageRequests ts outboundOk inboundOk nextFF rest
      else
        let res := manageRequests ts outboundOk inboundOk nextFF rest
        (r :: res.1, res.2)
    else -- done: exploratory, or older than 60 seconds; deleted without Fail
      manageRequests ts outboundOk inboundOk nextFF rest

/-- Non-exploratory request with a pending completion callback, created at
time 0. -/
def staleRequest : NetDbRequest :=
  { destination := 9, isExploratory := false, creationTime := 0,
    excludedPeers := [], hasCallback := true }

/-- Claim C8 (evaluation at the failing inputs): all three termination modes
of `ManageRequests` — request older than 60 s, floodfill/tunnel prerequisites
gone, and 7 attempts exhausted — remove the request without emitting any
`failCalled` event, although `RequestedDestination::Fail` (which would emit
it) exists and is what the claim requires. -/
theorem manageRequests_drops_without_fail_eval :
    manageRequests 61 true true (fun _ _ => some 3) [staleRequest] = ([], [])
    ∧ manageRequests 10 false true (fun _ _ => some 3) [staleRequest] = ([], [])
    ∧ manageRequests 10 true true (fun _ _ => none) [staleRequest] = ([], [])
    ∧ manageRequests 10 true true (fun _ _ => some 3)
        [{ staleRequest with excludedPeers := [1, 2, 3, 4, 5, 6, 7] }] = ([], [])
    ∧ requestFail staleRequest
        = ({ staleRequest with hasCallback := false },
           [RequestEvent.failCalled 9]) := by
  decide

end I2pd

namespace I2pd

/-! ### Claim C2: `NetDb::GetClosestFloodfill` -/

structure Floodfill where
  identHash : Nat
  unreachable : Bool
deriving DecidableEq

/-- Modelled from the spec: `XORMetric` (Identity.h is not among the provided
sources) compares 32-byte metrics as 256-bit big-endian integers (spec
section 3); `SetMax` fills all 32 bytes with 0xFF, the largest such value. -/
def maxMetric : Nat := 2 ^ 256 - 1

/-- Scan loop of `NetDb::GetClosestFloodfill` (NetDb.cpp lines 843-854):
skip unreachable or excluded floodfills; remember the first record whose
metric is strictly below the running minimum. -/
def closestGo (destKey : Nat) (excluded : List Nat) :
    List Floodfill → Option Floodfill → Nat → Option Floodfill
  | [], r, _ => r
  | f :: rest, r, minMetric =>
    if f.unreachable = false ∧ f.identHash ∉ excluded then
      let m := destKey ^^^ f.identHash
      if m < minMetric then closestGo destKey excluded rest (some f) m
      else closestGo destKey excluded rest r minMetric
    else closestGo destKey excluded rest r minMetric

/-- `NetDb::GetClosestFloodfill` (NetDb.cpp lines 835-856): result starts
null, the metric starts at `SetMax`, and the destination is first mapped
through `CreateRoutingKey` (external, abstracted as a function argument). -/
def getClosestFloodfill (createRoutingKey : Nat → Nat) (destination : Nat)
    (excluded : List Nat) (floodfills : List Floodfill) : Option Floodfill :=
  closestGo (createRoutingKey destination) excluded floodfills none maxMetric

/-- Claim C2 counterexample: a floodfill whose IdentHash is the bitwise
complement of the routing key has XOR metric `2^256 - 1 = SetMax`, which is
never strictly below the initial minimum, so the scan skips it.  With that
floodfill as the only eligible one, `GetClosestFloodfill` returns nothing even
though an eligible floodfill exists - the claim's "returns nothing exactly
when no such floodfill exists" fails. -/
theorem getClosestFloodfill_complement_counterexample :
    getClosestFloodfill (fun _ => 0) 0 [] [⟨2 ^ 256 - 1, false⟩] = none
    ∧ (⟨2 ^ 256 - 1, false⟩ : Floodfill).unreachable = false
    ∧ ((fun (_ : Nat) => (0 : Nat)) 0) ^^^ (2 ^ 256 - 1) = maxMetric := by
  refine ⟨?_, rfl, ?_⟩
  · simp [getClosestFloodfill, closestGo, maxMetric, Nat.zero_xor]
  · simp [maxMetric, Nat.zero_xor]

theorem closestGo_some_ne_none (destKey : Nat) (excluded : List Nat) :
    ∀ (l : List Floodfill) (f : Floodfill) (minM : Nat),
      closestGo destKey excluded l (some f) minM ≠ none := by
  intro l
  induction l with
  | nil => intro f minM h; cases h
  | cons g rest ih =>
    intro f minM
    simp only [closestGo]
    split_ifs <;> apply ih

theorem closestGo_none_iff (destKey : Nat) (excluded : List Nat) :
    ∀ (l : List Floodfill) (minM : Nat),
      closestGo destKey excluded l none minM = none ↔
        ∀ f ∈ l, f.unreachable = false → f.identHash ∉ excluded →
          ¬ destKey ^^^ f.identHash < minM := by
  intro l
  induction l with
  | nil => intro minM; simp [closestGo]
  | cons g rest ih =>
    intro minM
    simp only [closestGo]
    by_cases hg : g.unreachable = false ∧ g.identHash ∉ excluded
    · rw [if_pos hg]
      by_cases hm : destKey ^^^ g.identHash < minM
      · rw [if_pos hm]
        constructor
        · intro h; exact absurd h (closestGo_some_ne_none destKey excluded rest g _)
        · intro h
          exact absurd hm (h g (List.mem_cons_self g rest) hg.1 hg.2)
      · rw [if_neg hm, ih minM]
        constructor
        · intro h f hf
          rcases List.mem_cons.mp hf with rfl | hf'
          · intro _ _; exact hm
          · exact h f hf'
        · intro h f hf; exact h f (List.mem_cons_of_mem g hf)
    · rw [if_neg hg, ih minM]
      constructor
      · intro h f hf
        rcases List.mem_cons.mp hf with rfl | hf'
        · intro h1 h2; exact absurd ⟨h1, h2⟩ hg
        · exact h f hf'
      · intro h f hf; exact h f (List.mem_cons_of_mem g hf)

theorem closestGo_some_spec (destKey : Nat) (excluded : List Nat) :
    ∀ (l : List Floodfill) (r : Option Floodfill) (minM : Nat) (f : Floodfill),
      (∀ g, r = some g → g.unreachable = false ∧ g.identHash ∉ excluded ∧
        destKey ^^^ g.identHash = minM) →
      closestGo destKey excluded l r minM = some f →
      (f ∈ l ∨ r = some f) ∧ f.unreachable = false ∧ f.identHash ∉ excluded ∧
      destKey ^^^ f.identHash ≤ minM ∧
      (∀ g ∈ l, g.unreachable = false → g.identHash ∉ excluded →
        destKey ^^^ f.identHash ≤ destKey ^^^ g.identHash) := by
  intro l
  induction l with
  | nil =>
    intro r minM f hr heq
    simp only [closestGo] at heq
    obtain ⟨h1, h2, h3⟩ := hr f heq
    exact ⟨Or.inr heq, h1, h2, le_of_eq h3, by intro g hg; cases hg⟩
  | cons g' rest ih =>
    intro r minM f hr heq
    simp only [closestGo] at heq
    by_cases hg : g'.unreachable = false ∧ g'.identHash ∉ excluded
    · rw [if_pos hg] at heq
      by_cases hm : destKey ^^^ g'.identHash < minM
      · rw [if_pos hm] at heq
        have hr' : ∀ x, some g' = some x → x.unreachable = false ∧
            x.identHash ∉ excluded ∧
            destKey ^^^ x.identHash = destKey ^^^ g'.identHash := by
          intro x hx
          cases hx
          exact ⟨hg.1, hg.2, rfl⟩
        obtain ⟨hmem, h1, h2, h3, h4⟩ := ih (some g') _ f hr' heq
        refine ⟨?_, h1, h2, le_trans h3 (le_of_lt hm), ?_⟩
        · rcases hmem with hin | hsm
          · exact Or.inl (List.mem_cons_of_mem g' hin)
          · cases hsm; exact Or.inl (List.mem_cons_self _ _)
        · intro g hgmem hgu hge
          rcases List.mem_cons.mp hgmem with rfl | hin
          · exact h3
          · exact h4 g hin hgu hge
      · rw [if_neg hm] at heq
        obtain ⟨hmem, h1, h2, h3, h4⟩ := ih r minM f hr heq
        refine ⟨?_, h1, h2, h3, ?_⟩
        · rcases hmem with hin | hsm
          · exact Or.inl (List.mem_cons_of_mem g' hin)
          · exact Or.inr hsm
        · intro g hgmem hgu hge
          rcases List.mem_cons.mp hgmem with rfl | hin
          · exact le_trans h3 (le_of_not_lt hm)
          · exact h4 g hin hgu hge
    · rw [if_neg hg] at heq
      obtain ⟨hmem, h1, h2, h3, h4⟩ := ih r minM f hr heq
      refine ⟨?_, h1, h2, h3, ?_⟩
      · rcases hmem with hin | hsm
        · exact Or.inl (List.mem_cons_of_mem g' hin)
        · exact Or.inr hsm
      · intro g hgmem hgu hge
        rcases List.mem_cons.mp hgmem with rfl | hin
        · exact absurd ⟨hgu, hge⟩ hg
        · exact h4 g hin hgu hge

/-- Claim C2 (amended): an eligible floodfill (reachable, not excluded) with
256-bit IdentHashes: whenever `GetClosestFloodfill` returns a floodfill it is
eligible and minimizes the XOR distance from the routing key over all eligible
floodfills; it returns nothing exactly when every eligible floodfill (in
particular, when there is none) has XOR distance `2^256 - 1`, i.e. IdentHash
equal to the bitwise complement of the routing key — such a floodfill can
never be returned because its metric is not strictly below `SetMax`. -/
theorem getClosestFloodfill_spec (createRoutingKey : Nat → Nat)
    (destination : Nat) (excluded : List Nat) (floodfills : List Floodfill)
    (hb : ∀ f ∈ floodfills, f.identHash < 2 ^ 256)
    (hd : createRoutingKey destination < 2 ^ 256) :
    (∀ f, getClosestFloodfill createRoutingKey destination excluded floodfills
        = some f →
      f ∈ floodfills ∧ f.unreachable = false ∧ f.identHash ∉ excluded ∧
      ∀ g ∈ floodfills, g.unreachable = false → g.identHash ∉ excluded →
        createRoutingKey destination ^^^ f.identHash ≤
          createRoutingKey destination ^^^ g.identHash)
    ∧ (getClosestFloodfill createRoutingKey destination excluded floodfills
        = none ↔
      ∀ f ∈ floodfills, f.unreachable = false → f.identHash ∉ excluded →
        createRoutingKey destination ^^^ f.identHash = maxMetric) := by
  constructor
  · intro f heq
    obtain ⟨hmem, h1, h2, _h3, h4⟩ := closestGo_some_spec
      (createRoutingKey destination) excluded floodfills none maxMetric f
      (by intro g hg; cases hg) heq
    refine ⟨?_, h1, h2, h4⟩
    rcases hmem with hin | hsm
    · exact hin
    · cases hsm
  · rw [getClosestFloodfill, closestGo_none_iff]
    constructor
    · intro h f hf hu he
      have hlt : createRoutingKey destination ^^^ f.identHash < 2 ^ 256 :=
        Nat.xor_lt_two_pow hd (hb f hf)
      have := h f hf hu he
      unfold maxMetric at this ⊢
      omega
    · intro h f hf hu he
      rw [h f hf hu he]
      exact lt_irrefl _

def c2rk : Nat → Nat := fun _ => 5

def c2ffs : List Floodfill := [⟨9, false⟩, ⟨4, false⟩]

theorem getClosestFloodfill_spec_witness :
    ((∀ f ∈ c2ffs, f.identHash < 2 ^ 256) ∧ c2rk 0 < 2 ^ 256)
    ∧ ((⟨4, false⟩ : Floodfill) ∈ c2ffs
      ∧ (⟨4, false⟩ : Floodfill).unreachable = false
      ∧ (⟨4, false⟩ : Floodfill).identHash ∉ [(9 : Nat)]
      ∧ ∀ g ∈ c2ffs, g.unreachable = false → g.identHash ∉ [(9 : Nat)] →
          c2rk 0 ^^^ Floodfill.identHash ⟨4, false⟩ ≤
            c2rk 0 ^^^ g.identHash) :=
  ⟨⟨by decide, by decide⟩,
   (getClosestFloodfill_spec c2rk 0 [9] c2ffs (by decide) (by decide)).1
     ⟨4, false⟩ (by decide)⟩

end I2pd

namespace I2pd

/-! ### Lemmas for the SaveUpdated pass (Claim C3) -/

@[simp] theorem savePost_floodfill (ts total : Nat) (r : RouterRecord) :
    (savePost ts total r).floodfill = r.floodfill := by
  unfold savePost; split <;> rfl

@[simp] theorem savePost_updated (ts total : Nat) (r : RouterRecord) :
    (savePost ts total r).updated = r.updated := by
  unfold savePost; split <;> rfl

theorem savePost_reachable {ts total : Nat} {r : RouterRecord}
    (h : (savePost ts total r).unreachable = false) : r.unreachable = false := by
  unfold savePost at h
  split at h
  · simp at h
  · exact h

theorem saveGo_updated {hasFile : Nat → Bool} {ts : Nat} {ident : Nat}
    {r : RouterRecord} {rest : List (Nat × RouterRecord)} {ffs : List Nat}
    {total deleted : Nat} (hu : r.updated = true) :
    saveGo hasFile ts ((ident, r) :: rest) ffs total deleted =
      ((ident, { r with updated := false }) ::
        (saveGo hasFile ts rest ffs total deleted).1,
       (saveGo hasFile ts rest ffs total deleted).2) := by
  simp [saveGo, hu]

theorem saveGo_stale_unreachable {hasFile : Nat → Bool} {ts : Nat} {ident : Nat}
    {r : RouterRecord} {rest : List (Nat × RouterRecord)} {ffs : List Nat}
    {total deleted : Nat} (hu : r.updated = false)
    (hun : (savePost ts total r).unreachable = true) :
    saveGo hasFile ts ((ident, r) :: rest) ffs total deleted =
      ((ident, savePost ts total r) ::
        (saveGo hasFile ts rest
          (if (savePost ts total r).floodfill then
            ffs.filter (fun i => i ≠ ident) else ffs)
          (if expireCond ts total r then total - 1 else total)
          (if hasFile ident then deleted + 1 else deleted)).1,
       (saveGo hasFile ts rest
          (if (savePost ts total r).floodfill then
            ffs.filter (fun i => i ≠ ident) else ffs)
          (if expireCond ts total r then total - 1 else total)
          (if hasFile ident then deleted + 1 else deleted)).2) := by
  simp [saveGo, hu, hun]

theorem saveGo_stale_reachable {hasFile : Nat → Bool} {ts : Nat} {ident : Nat}
    {r : RouterRecord} {rest : List (Nat × RouterRecord)} {ffs : List Nat}
    {total deleted : Nat} (hu : r.updated = false)
    (hun : (savePost ts total r).unreachable = false) :
    saveGo hasFile ts ((ident, r) :: rest) ffs total deleted =
      ((ident, savePost ts total r) ::
        (saveGo hasFile ts rest ffs
          (if expireCond ts total r then total - 1 else total) deleted).1,
       (saveGo hasFile ts rest ffs
          (if expireCond ts total r then total - 1 else total) deleted).2) := by
  simp [saveGo, hu, hun]

/-- Relation between a record before and after one save pass: same key, same
floodfill flag, reachability can only be lost, and a record that ends up
unreachable was not in the updated branch. -/
def entryStep (pre post : Nat × RouterRecord) : Prop :=
  post.1 = pre.1 ∧ post.2.floodfill = pre.2.floodfill ∧
  (post.2.unreachable = false → pre.2.unreachable = false) ∧
  (post.2.unreachable = true → pre.2.updated = false)

theorem saveGo_spec (hasFile : Nat → Bool) (ts : Nat) :
    ∀ (rest : List (Nat × RouterRecord)) (ffs : List Nat) (total deleted : Nat),
    (∀ e ∈ rest, e.2.updated = true → e.2.unreachable = false) →
    ((saveGo hasFile ts rest ffs total deleted).1.map Prod.fst
        = rest.map Prod.fst)
    ∧ List.Forall₂ entryStep rest (saveGo hasFile ts rest ffs total deleted).1
    ∧ ∀ i : Nat, (i ∈ (saveGo hasFile ts rest ffs total deleted).2.1 ↔
        (i ∈ ffs ∧ ∀ e ∈ (saveGo hasFile ts rest ffs total deleted).1,
          e.1 = i → ¬(e.2.unreachable = true ∧ e.2.floodfill = true))) := by
  intro rest
  induction rest with
  | nil =>
    intro ffs total deleted _
    refine ⟨rfl, List.Forall₂.nil, ?_⟩
    intro i
    simp [saveGo]
  | cons e rest ih =>
    obtain ⟨ident, r⟩ := e
    intro ffs total deleted hno
    have hnoR : ∀ x ∈ rest, x.2.updated = true → x.2.unreachable = false :=
      fun x hx => hno x (List.mem_cons_of_mem _ hx)
    by_cases hu : r.updated = true
    · have hru : r.unreachable = false := hno (ident, r) (List.mem_cons_self _ _) hu
      rw [saveGo_updated hu]
      obtain ⟨ih1, ih2, ih3⟩ := ih ffs total deleted hnoR
      refine ⟨by simpa using ih1, ?_, ?_⟩
      · refine List.Forall₂.cons ⟨rfl, rfl, ?_, ?_⟩ ih2
        · intro _; exact hru
        · intro h; simp [hru] at h
      · intro i
        rw [ih3 i]
        constructor
        · rintro ⟨hi, hall⟩
          refine ⟨hi, ?_⟩
          intro x hx
          rcases List.mem_cons.mp hx with hhd | htl
          · subst hhd
            intro _ hcontra
            have := hcontra.1
            simp [hru] at this
          · exact hall x htl
        · rintro ⟨hi, hall⟩
          exact ⟨hi, fun x hx => hall x (List.mem_cons_of_mem _ hx)⟩
    · have hu' : r.updated = false := by
        cases h : r.updated
        · rfl
        · exact absurd h hu
      by_cases hun : (savePost ts total r).unreachable = true
      · rw [saveGo_stale_unreachable hu' hun]
        obtain ⟨ih1, ih2, ih3⟩ := ih
          (if (savePost ts total r).floodfill then
            ffs.filter (fun i => i ≠ ident) else ffs)
          (if expireCond ts total r then total - 1 else total)
          (if hasFile ident then deleted + 1 else deleted) hnoR
        refine ⟨by simpa using ih1, ?_, ?_⟩
        · refine List.Forall₂.cons ⟨rfl, savePost_floodfill ts total r, ?_, ?_⟩ ih2
          · intro h; rw [hun] at h; cases h
          · intro _; exact hu'
        · intro i
          rw [ih3 i]
          by_cases hf : (savePost ts total r).floodfill = true
          · rw [if_pos hf]
            constructor
            · rintro ⟨hi, hall⟩
              have hi' := List.mem_filter.mp hi
              have hne : i ≠ ident := by simpa using hi'.2
              refine ⟨hi'.1, ?_⟩
              intro x hx
              rcases List.mem_cons.mp hx with hhd | htl
              · subst hhd
                intro hxi _
                exact absurd hxi.symm hne
              · exact hall x htl
            · rintro ⟨hi, hall⟩
              have hne : i ≠ ident := by
                intro heq
                have := hall (ident, savePost ts total r)
                  (List.mem_cons_self _ _) heq.symm
                exact this ⟨hun, hf⟩
              refine ⟨List.mem_filter.mpr ⟨hi, by simpa using hne⟩, ?_⟩
              intro x hx
              exact hall x (List.mem_cons_of_mem _ hx)
          · have hf' : (savePost ts total r).floodfill = false := by
              cases h : (savePost ts total r).floodfill
              · rfl
              · exact absurd h hf
            rw [if_neg hf]
            constructor
            · rintro ⟨hi, hall⟩
              refine ⟨hi, ?_⟩
              intro x hx
              rcases List.mem_cons.mp hx with hhd | htl
              · subst hhd
                intro _ hcontra
                rw [hf'] at hcontra
                exact absurd hcontra.2 (by simp)
              · exact hall x htl
            · rintro ⟨hi, hall⟩
              exact ⟨hi, fun x hx => hall x (List.mem_cons_of_mem _ hx)⟩
      · have hun' : (savePost ts total r).unreachable = false := by
          cases h : (savePost ts total r).unreachable
          · rfl
          · exact absurd h hun
        rw [saveGo_stale_reachable hu' hun']
        obtain ⟨ih1, ih2, ih3⟩ := ih ffs
          (if expireCond ts total r then total - 1 else total) deleted hnoR
        refine ⟨by simpa using ih1, ?_, ?_⟩
        · refine List.Forall₂.cons ⟨rfl, savePost_floodfill ts total r, ?_, ?_⟩ ih2
          · intro _; exact savePost_reachable hun'
          · intro h; rw [hun'] at h; cases h
        · intro i
          rw [ih3 i]
          constructor
          · rintro ⟨hi, hall⟩
            refine ⟨hi, ?_⟩
            intro x hx
            rcases List.mem_cons.mp hx with hhd | htl
            · subst hhd
              intro _ hcontra
              rw [hun'] at hcontra
              exact absurd hcontra.1 (by simp)
            · exact hall x htl
          · rintro ⟨hi, hall⟩
            exact ⟨hi, fun x hx => hall x (List.mem_cons_of_mem _ hx)⟩

end I2pd

namespace I2pd

theorem forallTwo_exists_right {α β : Type} {R : α → β → Prop} :
    ∀ {l1 : List α} {l2 : List β}, List.Forall₂ R l1 l2 →
      ∀ a ∈ l1, ∃ b ∈ l2, R a b := by
  intro l1 l2 h
  induction h with
  | nil => intro a ha; cases ha
  | cons hR _hrest ih =>
    intro a ha
    rcases List.mem_cons.mp ha with rfl | ha'
    · exact ⟨_, List.mem_cons_self _ _, hR⟩
    · obtain ⟨b, hb, hRb⟩ := ih a ha'
      exact ⟨b, List.mem_cons_of_mem _ hb, hRb⟩

theorem forallTwo_exists_left {α β : Type} {R : α → β → Prop} :
    ∀ {l1 : List α} {l2 : List β}, List.Forall₂ R l1 l2 →
      ∀ b ∈ l2, ∃ a ∈ l1, R a b := by
  intro l1 l2 h
  induction h with
  | nil => intro b hb; cases hb
  | cons hR _hrest ih =>
    intro b hb
    rcases List.mem_cons.mp hb with rfl | hb'
    · exact ⟨_, List.mem_cons_self _ _, hR⟩
    · obtain ⟨a, ha, hRa⟩ := ih b hb'
      exact ⟨a, List.mem_cons_of_mem _ ha, hRa⟩

theorem keyed_unique : ∀ (l : List (Nat × RouterRecord)),
    (l.map Prod.fst).Nodup → ∀ {a b : Nat × RouterRecord},
    a ∈ l → b ∈ l → a.1 = b.1 → a = b := by
  intro l
  induction l with
  | nil => intro _ a b ha; cases ha
  | cons x t ih =>
    intro hnd a b ha hb hk
    rw [List.map_cons, List.nodup_cons] at hnd
    rcases List.mem_cons.mp ha with rfl | ha' <;>
      rcases List.mem_cons.mp hb with rfl | hb'
    · rfl
    · exfalso; apply hnd.1; rw [hk]; exact List.mem_map_of_mem Prod.fst hb'
    · exfalso; apply hnd.1; rw [← hk]; exact List.mem_map_of_mem Prod.fst ha'
    · exact ih hnd.2 ha' hb' hk

@[simp] theorem updateRecord_floodfill (a b : RouterRecord) :
    (updateRecord a b).floodfill = a.floodfill := by
  unfold updateRecord; split <;> rfl

@[simp] theorem updateRecord_unreachable (a b : RouterRecord) :
    (updateRecord a b).unreachable = a.unreachable := by
  unfold updateRecord; split <;> rfl

/-- Re-writing every record while preserving key, floodfill flag and
reachability preserves the invariant. -/
theorem floodfillInvariant_map (s : NetDbState)
    (g : Nat × RouterRecord → Nat × RouterRecord)
    (hg : ∀ e, (g e).1 = e.1 ∧ (g e).2.floodfill = e.2.floodfill ∧
      (g e).2.unreachable = e.2.unreachable)
    (hinv : floodfillInvariant s) :
    floodfillInvariant { s with routerInfos := s.routerInfos.map g } := by
  obtain ⟨h1, h2⟩ := hinv
  constructor
  · intro i hi
    obtain ⟨e, he, hek, hef, heu⟩ := h1 i hi
    exact ⟨g e, List.mem_map_of_mem g he, (hg e).1.trans hek,
      (hg e).2.1.trans hef, (hg e).2.2.trans heu⟩
  · intro x hx hef heu
    obtain ⟨e, he, rfl⟩ := List.mem_map.mp hx
    have hmem := h2 e he (by rw [← (hg e).2.1]; exact hef)
      (by rw [← (hg e).2.2]; exact heu)
    show (g e).1 ∈ s.floodfills
    rw [(hg e).1]
    exact hmem

theorem addRouterInfo_preserves_invariant (s : NetDbState) (ident : Nat)
    (r : RouterRecord) (hinv : floodfillInvariant s)
    (hr : r.unreachable = false) :
    floodfillInvariant (addRouterInfo s ident r) := by
  obtain ⟨h1, h2⟩ := hinv
  unfold addRouterInfo
  split_ifs with hfound hrf
  · exact floodfillInvariant_map s _
      (by
        intro e
        by_cases h : e.1 = ident <;> simp [h])
      ⟨h1, h2⟩
  · constructor
    · intro i hi
      rcases List.mem_append.mp hi with hi' | hi1
      · obtain ⟨e, he, hek, hef, heu⟩ := h1 i hi'
        exact ⟨e, List.mem_append_left _ he, hek, hef, heu⟩
      · have : i = ident := by simpa using hi1
        subst this
        exact ⟨(i, r), List.mem_append_right _ (by simp), rfl, hrf, hr⟩
    · intro e he hef heu
      rcases List.mem_append.mp he with he' | he1
      · exact List.mem_append_left _ (h2 e he' hef heu)
      · have : e = (ident, r) := by simpa using he1
        subst this
        exact List.mem_append_right _ (by simp)
  · constructor
    · intro i hi
      obtain ⟨e, he, hek, hef, heu⟩ := h1 i hi
      exact ⟨e, List.mem_append_left _ he, hek, hef, heu⟩
    · intro e he hef heu
      rcases List.mem_append.mp he with he' | he1
      · exact h2 e he' hef heu
      · have : e = (ident, r) := by simpa using he1
        subst this
        exact absurd hef hrf

theorem saveUpdated_restores_invariant (hasFile : Nat → Bool) (ts : Nat)
    (s : NetDbState)
    (hkeys : (s.routerInfos.map Prod.fst).Nodup)
    (hno : ∀ e ∈ s.routerInfos, e.2.updated = true → e.2.unreachable = false)
    (hsub1 : ∀ i ∈ s.floodfills, ∃ e ∈ s.routerInfos,
      e.1 = i ∧ e.2.floodfill = true)
    (hsub2 : ∀ e ∈ s.routerInfos, e.2.floodfill = true →
      e.2.unreachable = false → e.1 ∈ s.floodfills) :
    floodfillInvariant (saveUpdated hasFile ts s) := by
  obtain ⟨hmap, hsteps, hffs⟩ := saveGo_spec hasFile ts s.routerInfos
    s.floodfills s.routerInfos.length 0 hno
  have hndE : ((saveGo hasFile ts s.routerInfos s.floodfills
      s.routerInfos.length 0).1.map Prod.fst).Nodup := by
    rw [hmap]; exact hkeys
  simp only [saveUpdated]
  unfold floodfillInvariant
  constructor
  · intro i hi
    obtain ⟨hi0, hcond⟩ := (hffs i).mp hi
    obtain ⟨e0, he0, hek, hef⟩ := hsub1 i hi0
    obtain ⟨post, hpost, hR⟩ := forallTwo_exists_right hsteps e0 he0
    have hpk : post.1 = i := hR.1.trans hek
    have hpf : post.2.floodfill = true := hR.2.1.trans hef
    have hpu : post.2.unreachable = false := by
      cases h : post.2.unreachable
      · rfl
      · exact absurd ⟨h, hpf⟩ (hcond post hpost hpk)
    refine ⟨post, ?_, hpk, hpf, hpu⟩
    split_ifs
    · exact List.mem_filter.mpr ⟨hpost, by simp [hpu]⟩
    · exact hpost
  · intro e he hef heu
    have heE : e ∈ (saveGo hasFile ts s.routerInfos s.floodfills
        s.routerInfos.length 0).1 := by
      split_ifs at he
      · exact List.mem_of_mem_filter he
      · exact he
    obtain ⟨pre, hpre, hR⟩ := forallTwo_exists_left hsteps e heE
    have hprf : pre.2.floodfill = true := by rw [← hR.2.1]; exact hef
    have hpru : pre.2.unreachable = false := hR.2.2.1 heu
    have hiF : pre.1 ∈ s.floodfills := hsub2 pre hpre hprf hpru
    show e.1 ∈ (saveGo hasFile ts s.routerInfos s.floodfills
      s.routerInfos.length 0).2.1
    rw [hR.1]
    refine (hffs pre.1).mpr ⟨hiF, ?_⟩
    intro x hx hxk
    have hxe : x = e := keyed_unique _ hndE hx heE (by rw [hxk, hR.1])
    subst hxe
    intro hcontra
    rw [heu] at hcontra
    exact absurd hcontra.1 (by simp)

/-- Claim C3 (amended): `AddRouterInfo` preserves the floodfill invariant
(given that a freshly parsed record is not marked unreachable);
`SetUnreachable` leaves the floodfill list untouched, so the invariant can be
violated until the next save pass; and the `SaveUpdated` expiration pass
restores the invariant from any state in which the floodfill list sits
between the strict invariant set and the full floodfill-flagged set (the
states `SetUnreachable` produces), provided no record is simultaneously
marked updated and unreachable. -/
theorem floodfill_invariant_amended :
    (∀ (s : NetDbState) (ident : Nat) (r : RouterRecord),
      floodfillInvariant s → r.unreachable = false →
      floodfillInvariant (addRouterInfo s ident r))
    ∧ (∀ (s : NetDbState) (ident : Nat) (b : Bool),
      (setUnreachable s ident b).floodfills = s.floodfills)
    ∧ (∀ (hasFile : Nat → Bool) (ts : Nat) (s : NetDbState),
      (s.routerInfos.map Prod.fst).Nodup →
      (∀ e ∈ s.routerInfos, e.2.updated = true → e.2.unreachable = false) →
      (∀ i ∈ s.floodfills, ∃ e ∈ s.routerInfos,
        e.1 = i ∧ e.2.floodfill = true) →
      (∀ e ∈ s.routerInfos, e.2.floodfill = true → e.2.unreachable = false →
        e.1 ∈ s.floodfills) →
      floodfillInvariant (saveUpdated hasFile ts s)) :=
  ⟨addRouterInfo_preserves_invariant, fun _ _ _ => rfl,
   saveUpdated_restores_invariant⟩

theorem floodfill_invariant_amended_witness :
    (floodfillInvariant c3State
      ∧ floodfillInvariant (addRouterInfo c3State 9 c3Record))
    ∧ floodfillInvariant
        (saveUpdated (fun _ => true) 0 (setUnreachable c3State 7 true)) :=
  ⟨⟨by decide,
    floodfill_invariant_amended.1 c3State 9 c3Record (by decide) (by decide)⟩,
   floodfill_invariant_amended.2.2 (fun _ => true) 0
     (setUnreachable c3State 7 true) (by decide) (by decide) (by decide)
     (by decide)⟩

end I2pd

namespace I2pd

/-! ### Claim C1: in-order reassembly

`WfSeq`-style hypotheses describe a canonical packet sequence `c`: packet `i`
carries sequence number `i`, exactly the seq-0 packet is the SYN, no packet
carries CLOSE or a failing signature, and the length stays in the int32-safe
range.  The claim is that delivering any permutation of `c` to a fresh
incoming stream makes exactly the concatenation of the payloads in sequence
order available to the consumer. -/

def prefixQueue (c : List Packet) (k : Nat) : List (List Nat) :=
  ((c.take k).map Packet.payload).filter (fun l => l ≠ [])

theorem processPacket_isOpen_of_wf (s : StreamState) (p : Packet)
    (hc : p.isClose = false) (hs : p.hasSig = true → p.sigOk = true) :
    (processPacket s p).isOpen = s.isOpen := by
  have hsf : (p.hasSig && !p.sigOk) = false := by
    cases hh : p.hasSig
    · simp
    · simp [hs hh]
  simp only [processPacket, hsf, hc]
  split_ifs <;> simp_all

theorem toUInt32_natSucc (m : Nat) (h : m + 1 < 4294967296) :
    toUInt32 ((m : Int) + 1) = m + 1 := by
  unfold toUInt32
  omega

theorem take_succ_get (c : List Packet) (j : Nat) (h : j < c.length) :
    c.take (j + 1) = c.take j ++ [c.get ⟨j, h⟩] := by
  rw [List.get_eq_getElem, ← List.concat_eq_append, List.take_concat_get]

theorem prefixQueue_succ (c : List Packet) (j : Nat) (h : j < c.length) :
    prefixQueue c (j + 1) =
      prefixQueue c j ++
        (if (c.get ⟨j, h⟩).payload ≠ [] then [(c.get ⟨j, h⟩).payload] else []) := by
  unfold prefixQueue
  rw [take_succ_get c j h, List.map_append, List.filter_append]
  congr 1
  by_cases hp : (c.get ⟨j, h⟩).payload = []
  · simp only [List.get_eq_getElem] at hp
    simp [hp]
  · simp only [List.get_eq_getElem] at hp
    simp [hp]

theorem mem_get_of_seqn (c : List Packet)
    (hseq : ∀ i (h : i < c.length), (c.get ⟨i, h⟩).seqn = i)
    {p : Packet} (hp : p ∈ c) :
    ∃ h : p.seqn < c.length, c.get ⟨p.seqn, h⟩ = p := by
  obtain ⟨⟨i, hi⟩, hget⟩ := List.get_of_mem hp
  have : p.seqn = i := by rw [← hget]; exact hseq i hi
  subst this
  exact ⟨hi, hget⟩

/-- The drain loop of `HandleNextPacket`: starting from last received `m` with
the queue holding payloads `0..m`, it consumes the maximal run of consecutive
saved packets, ending at some `m' ≥ m` with the queue extended accordingly,
the saved set reduced to the packets beyond `m'`, and `m' + 1` absent from the
remaining saved sequence numbers. -/
theorem drain_inv (c : List Packet)
    (hseq : ∀ i (h : i < c.length), (c.get ⟨i, h⟩).seqn = i)
    (hflags : ∀ p ∈ c, p.isClose = false ∧ (p.hasSig = true → p.sigOk = true))
    (hn : c.length < 2147483648) :
    ∀ (saved : List Packet) (s : StreamState) (m : Nat),
    s.lastReceived = (m : Int) → m < c.length →
    s.receiveQueue = prefixQueue c (m + 1) →
    List.Sorted (fun a b : Packet => a.seqn < b.seqn) saved →
    (∀ q ∈ saved, q ∈ c ∧ m < q.seqn) →
    ∃ m' : Nat, m ≤ m' ∧ m' < c.length ∧
      (drainSaved s saved).lastReceived = (m' : Int) ∧
      (drainSaved s saved).receiveQueue = prefixQueue c (m' + 1) ∧
      (drainSaved s saved).isOpen = s.isOpen ∧
      (drainSaved s saved).savedPackets
        = saved.filter (fun q => decide (m' < q.seqn)) ∧
      (∀ q ∈ saved, m' < q.seqn → q.seqn ≠ m' + 1) ∧
      (↑(c.take (m' + 1)) : Multiset Packet)
          + ↑(saved.filter (fun q => decide (m' < q.seqn)))
        = ↑(c.take (m + 1)) + ↑saved := by
  intro saved
  induction saved with
  | nil =>
    intro s m hlast hm hqueue _ _
    refine ⟨m, le_refl m, hm, ?_, ?_, ?_, ?_, ?_, ?_⟩
    · simpa [drainSaved] using hlast
    · simpa [drainSaved] using hqueue
    · simp [drainSaved]
    · simp [drainSaved]
    · intro q hq; cases hq
    · simp
  | cons q rest ih =>
    intro s m hlast hm hqueue hsorted helem
    have hqc := (helem q (List.mem_cons_self q rest)).1
    have hqm : m < q.seqn := (helem q (List.mem_cons_self q rest)).2
    have hcvt : toUInt32 (s.lastReceived + 1) = m + 1 := by
      rw [hlast]
      exact toUInt32_natSucc m (by omega)
    by_cases hq : q.seqn = m + 1
    · -- the head extends the run: process it and recurse
      have hstep : drainSaved s (q :: rest) = drainSaved (processPacket s q) rest := by
        simp [drainSaved, hcvt, hq]
      obtain ⟨hmlt, hget⟩ := mem_get_of_seqn c hseq hqc
      have hm1 : m + 1 < c.length := by omega
      have hgq : c.get ⟨m + 1, hm1⟩ = q := by
        have hfin : (⟨m + 1, hm1⟩ : Fin c.length) = ⟨q.seqn, hmlt⟩ := by
          apply Fin.ext
          simp [hq]
        rw [hfin, hget]
      have hlast2 : (processPacket s q).lastReceived = ((m + 1 : Nat) : Int) := by
        rw [processPacket_lastReceived, hq, toInt32_of_lt _ (by omega)]
      have hqueue2 : (processPacket s q).receiveQueue = prefixQueue c (m + 1 + 1) := by
        rw [processPacket_receiveQueue, hqueue, prefixQueue_succ c (m + 1) hm1, hgq]
      have hsorted2 : List.Sorted (fun a b : Packet => a.seqn < b.seqn) rest :=
        hsorted.of_cons
      have helem2 : ∀ x ∈ rest, x ∈ c ∧ m + 1 < x.seqn := by
        intro x hx
        refine ⟨(helem x (List.mem_cons_of_mem q hx)).1, ?_⟩
        have := (List.sorted_cons.mp hsorted).1 x hx
        omega
      obtain ⟨m', h1, h2, h3, h4, h5, h6, h7, h8⟩ :=
        ih (processPacket s q) (m + 1) hlast2 hm1 hqueue2 hsorted2 helem2
      have hopen : (processPacket s q).isOpen = s.isOpen :=
        processPacket_isOpen_of_wf s q (hflags q hqc).1 (hflags q hqc).2
      refine ⟨m', by omega, h2, by rw [hstep]; exact h3,
        by rw [hstep]; exact h4, by rw [hstep, h5]; exact hopen, ?_, ?_, ?_⟩
      · rw [hstep, h6]
        have : (decide (m' < q.seqn)) = false := by
          simp only [decide_eq_false_iff_not]
          omega
        simp [List.filter_cons, this]
      · intro x hx
        rcases List.mem_cons.mp hx with rfl | hx'
        · intro hlt; omega
        · exact h7 x hx'
      · have hfq : (q :: rest).filter (fun x => decide (m' < x.seqn))
            = rest.filter (fun x => decide (m' < x.seqn)) := by
          have : (decide (m' < q.seqn)) = false := by
            simp only [decide_eq_false_iff_not]
            omega
          simp [List.filter_cons, this]
        rw [hfq]
        have htake : (↑(c.take (m + 1 + 1)) : Multiset Packet)
            = ↑(c.take (m + 1)) + ↑[q] := by
          rw [take_succ_get c (m + 1) hm1, hgq]
          rfl
        rw [h8, htake, add_assoc]
        congr 1
    · -- the head breaks the run: the loop stops here
      have hstop : drainSaved s (q :: rest) = { s with savedPackets := q :: rest } := by
        simp [drainSaved, hcvt, hq]
      have hfilter : (q :: rest).filter (fun x => decide (m < x.seqn)) = q :: rest := by
        rw [List.filter_eq_self]
        intro x hx
        simpa using (helem x hx).2
      refine ⟨m, le_refl m, hm, by simpa [hstop] using hlast,
        by simpa [hstop] using hqueue, by simp [hstop], ?_, ?_, ?_⟩
      · rw [hstop, hfilter]
      · intro x hx _
        rcases List.mem_cons.mp hx with rfl | hx'
        · exact hq
        · have h1 := (List.sorted_cons.mp hsorted).1 x hx'
          omega
      · rw [hfilter]

theorem map_seqn_eq_range (c : List Packet)
    (hseq : ∀ i (h : i < c.length), (c.get ⟨i, h⟩).seqn = i) :
    c.map Packet.seqn = List.range c.length := by
  apply List.ext_get
  · simp
  · intro n h1 h2
    have h3 : n < c.length := by simpa using h1
    have h4 := hseq n h3
    simp only [List.get_eq_getElem, List.getElem_map, List.getElem_range]
    simpa [List.get_eq_getElem] using h4

theorem seqn_lt_of_mem_take (c : List Packet)
    (hseq : ∀ i (h : i < c.length), (c.get ⟨i, h⟩).seqn = i)
    (j : Nat) {x : Packet} (hx : x ∈ c.take j) : x.seqn < j := by
  obtain ⟨⟨i, hi⟩, hget⟩ := List.get_of_mem hx
  have hi2 := hi
  simp only [List.length_take, lt_min_iff] at hi2
  have hgc : c.get ⟨i, hi2.2⟩ = x := by
    rw [← hget]
    simp [List.get_eq_getElem, List.getElem_take]
  have : x.seqn = i := by rw [← hgc]; exact hseq i hi2.2
  omega

theorem mem_take_of_get (c : List Packet) (k : Nat) {p : Packet}
    (hp : p.seqn < k) (hplt : p.seqn < c.length)
    (hpget : c.get ⟨p.seqn, hplt⟩ = p) : p ∈ c.take k := by
  have hlt2 : p.seqn < (c.take k).length := by
    simp only [List.length_take, lt_min_iff]
    exact ⟨hp, hplt⟩
  have hgt : (c.take k).get ⟨p.seqn, hlt2⟩ = p := by
    rw [List.get_eq_getElem] at hpget ⊢
    simpa [List.getElem_take] using hpget
  rw [← hgt]
  exact List.get_mem _ _ _

theorem multiset_cons_sub (p : Packet) (A B : Multiset Packet) (h : B ≤ A) :
    (p ::ₘ A) - B = p ::ₘ (A - B) := by
  ext x
  simp only [Multiset.count_sub, Multiset.count_cons]
  have := Multiset.count_le_of_le x h
  by_cases hx : x = p
  · subst hx
    simp only [if_pos rfl]
    omega
  · simp only [if_neg hx]
    omega

theorem insertSaved_mem (p : Packet) : ∀ (l : List Packet) (x : Packet),
    x ∈ insertSaved p l → x = p ∨ x ∈ l := by
  intro l
  induction l with
  | nil =>
    intro x hx
    simp only [insertSaved, List.mem_singleton] at hx
    exact Or.inl hx
  | cons q rest ih =>
    intro x hx
    by_cases h1 : p.seqn < q.seqn
    · simp only [insertSaved, if_pos h1, List.mem_cons] at hx
      rcases hx with h | h | h
      · exact Or.inl h
      · exact Or.inr (List.mem_cons.mpr (Or.inl h))
      · exact Or.inr (List.mem_cons_of_mem q h)
    · by_cases h2 : p.seqn = q.seqn
      · simp only [insertSaved, if_neg h1, if_pos h2] at hx
        exact Or.inr hx
      · simp only [insertSaved, if_neg h1, if_neg h2, List.mem_cons] at hx
        rcases hx with h | h
        · exact Or.inr (List.mem_cons.mpr (Or.inl h))
        · rcases ih x h with h' | h'
          · exact Or.inl h'
          · exact Or.inr (List.mem_cons_of_mem q h')

theorem insertSaved_sorted (p : Packet) : ∀ (l : List Packet),
    List.Sorted (fun a b : Packet => a.seqn < b.seqn) l →
    (∀ q ∈ l, q.seqn ≠ p.seqn) →
    List.Sorted (fun a b : Packet => a.seqn < b.seqn) (insertSaved p l) := by
  intro l
  induction l with
  | nil =>
    intro _ _
    simp [insertSaved]
  | cons q rest ih =>
    intro hs hf
    by_cases h1 : p.seqn < q.seqn
    · rw [show insertSaved p (q :: rest) = p :: q :: rest from by
        simp [insertSaved, h1]]
      rw [List.sorted_cons]
      refine ⟨?_, hs⟩
      intro b hb
      rcases List.mem_cons.mp hb with rfl | hb'
      · exact h1
      · have := (List.sorted_cons.mp hs).1 b hb'
        omega
    · by_cases h2 : p.seqn = q.seqn
      · exact absurd h2.symm (hf q (List.mem_cons_self q rest))
      · rw [show insertSaved p (q :: rest) = q :: insertSaved p rest from by
          simp [insertSaved, h1, h2]]
        rw [List.sorted_cons]
        obtain ⟨hq, hrest⟩ := List.sorted_cons.mp hs
        refine ⟨?_, ih hrest (fun x hx => hf x (List.mem_cons_of_mem q hx))⟩
        intro b hb
        rcases insertSaved_mem p rest b hb with rfl | hb'
        · omega
        · exact hq b hb'

theorem insertSaved_coe (p : Packet) : ∀ (l : List Packet),
    (∀ q ∈ l, q.seqn ≠ p.seqn) →
    (↑(insertSaved p l) : Multiset Packet) = p ::ₘ ↑l := by
  intro l
  induction l with
  | nil => intro _; rfl
  | cons q rest ih =>
    intro hf
    by_cases h1 : p.seqn < q.seqn
    · rw [show insertSaved p (q :: rest) = p :: q :: rest from by
        simp [insertSaved, h1]]
      rfl
    · by_cases h2 : p.seqn = q.seqn
      · exact absurd h2.symm (hf q (List.mem_cons_self q rest))
      · rw [show insertSaved p (q :: rest) = q :: insertSaved p rest from by
          simp [insertSaved, h1, h2]]
        rw [← Multiset.cons_coe, ih (fun x hx => hf x (List.mem_cons_of_mem q hx)),
          ← Multiset.cons_coe, Multiset.cons_swap]

theorem streamSend_nil_opens (s : StreamState) (h : s.isOpen = false) :
    ((streamSend s []).1).isOpen = true := by
  simp [streamSend, sendLoop, h]

theorem handleInOrder_isOpen (s : StreamState) (p : Packet)
    (h : (drainSaved (processPacket s p)
            (processPacket s p).savedPackets).isOpen = true
         ∨ p.isSyn = true) :
    (handleInOrder s p).isOpen = true := by
  simp only [handleInOrder]
  split_ifs with h1 h2
  · simpa using h1
  · exact streamSend_nil_opens _ (by simpa using h1)
  · rcases h with h | h
    · exact absurd h h1
    · exact absurd h h2

theorem concatGo_all : ∀ (q : List (List Nat)) (len : Nat),
    (∀ x ∈ q, x ≠ []) → (q.map List.length).sum ≤ len →
    concatGo len q = (q.flatten, []) := by
  intro q
  induction q with
  | nil =>
    intro len _ _
    simp [concatGo]
  | cons h t ih =>
    intro len hne hsum
    have hh : h ≠ [] := hne h (List.mem_cons_self h t)
    have hhl : 0 < h.length := List.length_pos.mpr hh
    simp only [List.map_cons, List.sum_cons] at hsum
    have hlen0 : ¬(len = 0) := by omega
    have hmin : min h.length len = h.length := by omega
    simp only [concatGo, if_neg hlen0, hmin, List.drop_length, List.take_length,
      if_pos]
    rw [ih (len - h.length) (fun x hx => hne x (List.mem_cons_of_mem h hx))
      (by omega)]
    simp

theorem flatten_filter_ne_nil : ∀ (l : List (List Nat)),
    (l.filter (fun x => x ≠ [])).flatten = l.flatten := by
  intro l
  induction l with
  | nil => rfl
  | cons h t ih =>
    simp only [ne_eq, decide_not] at ih ⊢
    by_cases hh : h = []
    · simp [List.filter_cons, hh, ih]
    · simp [List.filter_cons, hh, ih]

/-- Reassembly invariant of a stream fed packets drawn from the canonical
sequence `c`: after the multiset `A` of packets has arrived, some prefix
length `k` of `c` has been fully delivered to the receive queue, the saved
set holds exactly the arrived packets beyond that prefix, and the prefix can
only end at a gap (`k` has not arrived yet). -/
def StreamInv (c : List Packet) (A : Multiset Packet) (s : StreamState) : Prop :=
  ∃ k : Nat,
    k ≤ c.length ∧
    s.lastReceived = (k : Int) - 1 ∧
    s.isOpen = decide (0 < k) ∧
    s.receiveQueue = prefixQueue c k ∧
    (↑(c.take k) : Multiset Packet) ≤ A ∧
    k ∉ Multiset.map Packet.seqn A ∧
    A ≤ (↑c : Multiset Packet) ∧
    List.Sorted (fun a b : Packet => a.seqn < b.seqn) s.savedPackets ∧
    (↑s.savedPackets : Multiset Packet) = A - ↑(c.take k) ∧
    (∀ q ∈ s.savedPackets, k < q.seqn)

/-- One arrival preserves the reassembly invariant: an already-delivered
sequence number cannot arrive again (freshness), an in-order packet advances
the prefix through the drain loop, and an out-of-order packet is buffered. -/
theorem streamInv_step (c : List Packet)
    (hseq : ∀ i (h : i < c.length), (c.get ⟨i, h⟩).seqn = i)
    (hsyn : ∀ p ∈ c, (p.isSyn = true ↔ p.seqn = 0))
    (hflags : ∀ p ∈ c, p.isClose = false ∧ (p.hasSig = true → p.sigOk = true))
    (hn : c.length < 2147483648)
    (A : Multiset Packet) (s : StreamState) (p : Packet)
    (hinv : StreamInv c A s) (hp : p ∈ c)
    (hfresh : p.seqn ∉ Multiset.map Packet.seqn A)
    (hpc : p ::ₘ A ≤ (↑c : Multiset Packet)) :
    StreamInv c (p ::ₘ A) (handleNextPacket s p) := by
  obtain ⟨k, hk, hlast, hopen, hqueue, htake, hgap, hAc, hsorted, hsavedm, hsavedgt⟩ := hinv
  obtain ⟨hplt, hpget⟩ := mem_get_of_seqn c hseq hp
  have hrs : toInt32 p.seqn = (p.seqn : Int) := toInt32_of_lt _ (by omega)
  have h0 : ¬(toInt32 p.seqn = 0 ∧ p.isSyn = false) := by
    rw [hrs]
    rintro ⟨hz, hns⟩
    have hz' : p.seqn = 0 := by exact_mod_cast hz
    rw [(hsyn p hp).mpr hz'] at hns
    cases hns
  have hsavedc : ∀ q ∈ s.savedPackets, q ∈ c := by
    intro q hq
    have h1 : q ∈ (↑s.savedPackets : Multiset Packet) := Multiset.mem_coe.mpr hq
    rw [hsavedm] at h1
    exact Multiset.mem_coe.mp (Multiset.mem_of_le hAc (Multiset.mem_of_le tsub_le_self h1))
  rcases lt_trichotomy p.seqn k with hlt | heq | hgt
  · -- impossible: p is in the delivered prefix, hence in A, contradicting freshness
    exfalso
    have hmem : p ∈ c.take k := mem_take_of_get c k hlt hplt hpget
    have hin : p ∈ A := Multiset.mem_of_le htake (Multiset.mem_coe.mpr hmem)
    exact hfresh (Multiset.mem_map_of_mem Packet.seqn hin)
  · -- in-order arrival: the drain loop advances the prefix
    subst heq
    have h1 : p.isSyn = true ∨ toInt32 p.seqn = s.lastReceived + 1 := by
      right
      rw [hrs, hlast]
      omega
    rw [handleNextPacket_eq_inOrder s p h0 h1]
    have hs1last : (processPacket (preprocess s p) p).lastReceived
        = ((p.seqn : Nat) : Int) := by
      rw [processPacket_lastReceived, hrs]
    have hs1queue : (processPacket (preprocess s p) p).receiveQueue
        = prefixQueue c (p.seqn + 1) := by
      rw [processPacket_receiveQueue, preprocess_receiveQueue, hqueue,
        prefixQueue_succ c p.seqn hplt, hpget]
    have hs1saved : (processPacket (preprocess s p) p).savedPackets
        = s.savedPackets := by
      rw [processPacket_savedPackets, preprocess_savedPackets]
    have hsortedc : List.Sorted (fun a b : Packet => a.seqn < b.seqn)
        (processPacket (preprocess s p) p).savedPackets := by
      rw [hs1saved]; exact hsorted
    have helems : ∀ q ∈ (processPacket (preprocess s p) p).savedPackets,
        q ∈ c ∧ p.seqn < q.seqn := by
      rw [hs1saved]
      intro q hq
      exact ⟨hsavedc q hq, hsavedgt q hq⟩
    obtain ⟨m', hm1, hm2, hd_last, hd_queue, hd_open, hd_saved, hd_gap, hd_ms⟩ :=
      drain_inv c hseq hflags hn (processPacket (preprocess s p) p).savedPackets
        (processPacket (preprocess s p) p) p.seqn hs1last hplt hs1queue hsortedc helems
    obtain ⟨hc_queue, hc_last, hc_saved⟩ := handleInOrder_core (preprocess s p) p
    rw [hs1saved] at hd_last hd_queue hd_open hd_saved hd_gap hd_ms
    rw [hs1saved] at hc_queue hc_last hc_saved
    have hc_open : (handleInOrder (preprocess s p) p).isOpen = true := by
      apply handleInOrder_isOpen
      by_cases hk0 : 0 < p.seqn
      · left
        rw [hs1saved, hd_open,
          processPacket_isOpen_of_wf _ _ (hflags p hp).1 (hflags p hp).2,
          preprocess_isOpen, hopen]
        simpa using hk0
      · right
        exact (hsyn p hp).mpr (by omega)
    have htake1 : (↑(c.take (p.seqn + 1)) : Multiset Packet)
        = ↑(c.take p.seqn) + ({p} : Multiset Packet) := by
      rw [take_succ_get c p.seqn hplt, hpget]
      rfl
    have hms2 : (↑(c.take (m' + 1)) : Multiset Packet)
        + ↑(s.savedPackets.filter (fun q => decide (m' < q.seqn)))
        = p ::ₘ A := by
      rw [hd_ms, htake1, hsavedm,
        add_comm (↑(c.take p.seqn) : Multiset Packet) ({p} : Multiset Packet),
        add_assoc, add_tsub_cancel_of_le htake, Multiset.singleton_add]
    refine ⟨m' + 1, by omega, ?_, ?_, ?_, ?_, ?_, hpc, ?_, ?_, ?_⟩
    · rw [hc_last, hd_last]
      push_cast
      ring
    · rw [hc_open]
      symm
      simp
    · rw [hc_queue, hd_queue]
    · exact Multiset.le_iff_exists_add.mpr ⟨_, hms2.symm⟩
    · intro hmem
      rw [Multiset.map_cons, Multiset.mem_cons] at hmem
      rcases hmem with hps | hA'
      · omega
      · have hAeq : A = ↑(c.take p.seqn) + (↑s.savedPackets : Multiset Packet) := by
          rw [hsavedm, add_tsub_cancel_of_le htake]
        rw [hAeq, Multiset.map_add, Multiset.mem_add] at hA'
        rcases hA' with h1' | h2'
        · obtain ⟨x, hx, hxe⟩ := Multiset.mem_map.mp h1'
          have := seqn_lt_of_mem_take c hseq p.seqn (Multiset.mem_coe.mp hx)
          omega
        · obtain ⟨x, hx, hxe⟩ := Multiset.mem_map.mp h2'
          have hxl := Multiset.mem_coe.mp hx
          by_cases hxm : m' < x.seqn
          · exact absurd hxe (hd_gap x hxl hxm)
          · omega
    · rw [hc_saved, hd_saved]
      exact hsorted.filter _
    · rw [hc_saved, hd_saved, ← hms2, add_tsub_cancel_left]
    · intro q hq
      rw [hc_saved, hd_saved] at hq
      have hq1 := List.mem_filter.mp hq
      have hq2 : m' < q.seqn := of_decide_eq_true hq1.2
      have := hd_gap q hq1.1 hq2
      omega
  · -- out-of-order arrival: buffered in the saved set
    have hns : p.isSyn = false := by
      by_cases hsy : p.isSyn = true
      · have := (hsyn p hp).mp hsy
        omega
      · simpa using hsy
    have h1 : ¬(p.isSyn = true ∨ toInt32 p.seqn = s.lastReceived + 1) := by
      rintro (hsy | hseq')
      · rw [hns] at hsy
        cases hsy
      · rw [hrs, hlast] at hseq'
        omega
    have h2 : ¬(toInt32 p.seqn ≤ s.lastReceived) := by
      rw [hrs, hlast]
      intro hle
      omega
    rw [handleNextPacket_eq_save s p h0 h1 h2]
    have hf : ∀ q ∈ s.savedPackets, q.seqn ≠ p.seqn := by
      intro q hq hqe
      apply hfresh
      have hqA : q ∈ A := by
        have h1' : q ∈ (↑s.savedPackets : Multiset Packet) := Multiset.mem_coe.mpr hq
        rw [hsavedm] at h1'
        exact Multiset.mem_of_le tsub_le_self h1'
      rw [← hqe]
      exact Multiset.mem_map_of_mem Packet.seqn hqA
    refine ⟨k, hk, by simpa using hlast, by simpa using hopen, by simpa using hqueue,
      htake.trans (Multiset.le_cons_self A p), ?_, hpc, ?_, ?_, ?_⟩
    · intro hmem
      rw [Multiset.map_cons, Multiset.mem_cons] at hmem
      rcases hmem with h | h
      · omega
      · exact hgap h
    · simp only [preprocess_savedPackets]
      exact insertSaved_sorted p s.savedPackets hsorted hf
    · simp only [preprocess_savedPackets]
      rw [insertSaved_coe p s.savedPackets hf, hsavedm, multiset_cons_sub p A _ htake]
    · simp only [preprocess_savedPackets]
      intro q hq
      rcases insertSaved_mem p s.savedPackets q hq with rfl | hq'
      · exact hgt
      · exact hsavedgt q hq'

/-- Folding a whole arrival list through `HandleNextPacket` carries the
reassembly invariant from the initial state to the fully-arrived state. -/
theorem runStream_inv (c : List Packet)
    (hseq : ∀ i (h : i < c.length), (c.get ⟨i, h⟩).seqn = i)
    (hsyn : ∀ p ∈ c, (p.isSyn = true ↔ p.seqn = 0))
    (hflags : ∀ p ∈ c, p.isClose = false ∧ (p.hasSig = true → p.sigOk = true))
    (hn : c.length < 2147483648)
    (hnodup : (c.map Packet.seqn).Nodup) :
    ∀ (todo : List Packet) (A : Multiset Packet) (s : StreamState),
      A + ↑todo = (↑c : Multiset Packet) → StreamInv c A s →
      StreamInv c (↑c : Multiset Packet) (runStream s todo) := by
  intro todo
  induction todo with
  | nil =>
    intro A s hA hinv
    have hAc : A = (↑c : Multiset Packet) := by simpa using hA
    subst hAc
    simpa [runStream] using hinv
  | cons p rest ih =>
    intro A s hA hinv
    have hA2 : (p ::ₘ A) + ↑rest = (↑c : Multiset Packet) := by
      rw [← hA, ← Multiset.cons_coe, Multiset.add_cons, Multiset.cons_add]
    have hpc : p ::ₘ A ≤ (↑c : Multiset Packet) :=
      Multiset.le_iff_exists_add.mpr ⟨↑rest, hA2.symm⟩
    have hp : p ∈ c :=
      Multiset.mem_coe.mp (Multiset.mem_of_le hpc (Multiset.mem_cons_self p A))
    have hfresh : p.seqn ∉ Multiset.map Packet.seqn A := by
      intro hmem
      have hle : Multiset.map Packet.seqn (p ::ₘ A)
          ≤ Multiset.map Packet.seqn (↑c : Multiset Packet) :=
        Multiset.map_le_map hpc
      have hcnt := Multiset.count_le_of_le p.seqn hle
      rw [Multiset.map_cons, Multiset.count_cons_self] at hcnt
      have hnd : (Multiset.map Packet.seqn (↑c : Multiset Packet)).Nodup := by
        rw [Multiset.map_coe]
        exact Multiset.coe_nodup.mpr hnodup
      have hc1 := Multiset.nodup_iff_count_le_one.mp hnd p.seqn
      have hc2 := Multiset.count_pos.mpr hmem
      omega
    have hstep := streamInv_step c hseq hsyn hflags hn A s p hinv hp hfresh hpc
    have hrun : runStream s (p :: rest) = runStream (handleNextPacket s p) rest := rfl
    rw [hrun]
    exact ih (p ::ₘ A) (handleNextPacket s p) hA2 hstep

/-- Claim C1: for a canonical packet sequence `c` (packet `i` carries sequence
number `i`, the SYN is exactly the seq-0 packet, no CLOSE flags, signatures
verify, int32-safe length) delivered to a fresh incoming stream in any arrival
order, the bytes made available by `ConcatenatePackets` are exactly the
payloads concatenated in ascending sequence-number order; the saved set is
empty at the end (every buffered out-of-order packet was processed once its
gap filled) and `lastReceivedSequenceNumber` is the last sequence number. -/
theorem stream_inorder_reassembly (c ps : List Packet)
    (rid idLen sigLen len : Nat)
    (hseq : ∀ i (h : i < c.length), (c.get ⟨i, h⟩).seqn = i)
    (hsyn : ∀ p ∈ c, (p.isSyn = true ↔ p.seqn = 0))
    (hflags : ∀ p ∈ c, p.isClose = false ∧ (p.hasSig = true → p.sigOk = true))
    (hn : c.length < 2147483648)
    (hperm : ps.Perm c)
    (hlen : ((c.map Packet.payload).flatten).length ≤ len) :
    (concatenatePackets (runStream (initialIncomingStream rid idLen sigLen) ps)
        len).1
      = (c.map Packet.payload).flatten
    ∧ (runStream (initialIncomingStream rid idLen sigLen) ps).savedPackets = []
    ∧ (runStream (initialIncomingStream rid idLen sigLen) ps).lastReceived
      = (c.length : Int) - 1 := by
  have hinit : StreamInv c 0 (initialIncomingStream rid idLen sigLen) := by
    refine ⟨0, Nat.zero_le _, by simp [initialIncomingStream],
      by simp [initialIncomingStream], ?_, ?_, ?_, ?_, ?_, ?_, ?_⟩
    · simp [initialIncomingStream, prefixQueue]
    · simp
    · simp
    · exact Multiset.zero_le _
    · simp [initialIncomingStream]
    · simp [initialIncomingStream]
    · intro q hq
      simp [initialIncomingStream] at hq
  have hnodup : (c.map Packet.seqn).Nodup := by
    rw [map_seqn_eq_range c hseq]
    exact List.nodup_range _
  have hA0 : (0 : Multiset Packet) + ↑ps = (↑c : Multiset Packet) := by
    rw [zero_add]
    exact Multiset.coe_eq_coe.mpr hperm
  obtain ⟨k, hk, hlast, hopen, hqueue, htake, hgap, hAc, hsorted, hsavedm, hsavedgt⟩ :=
    runStream_inv c hseq hsyn hflags hn hnodup ps 0
      (initialIncomingStream rid idLen sigLen) hA0 hinit
  have hkn : k = c.length := by
    rcases Nat.lt_or_ge k c.length with hlt | hge
    · exfalso
      apply hgap
      have h1 : k ∈ c.map Packet.seqn := by
        rw [map_seqn_eq_range c hseq]
        exact List.mem_range.mpr hlt
      rw [Multiset.map_coe]
      exact Multiset.mem_coe.mpr h1
    · omega
  subst hkn
  have hQ : (runStream (initialIncomingStream rid idLen sigLen) ps).receiveQueue
      = (c.map Packet.payload).filter (fun l => l ≠ []) := by
    rw [hqueue]
    unfold prefixQueue
    rw [List.take_length]
  have hne : ∀ x ∈ (c.map Packet.payload).filter (fun l => l ≠ []), x ≠ [] := by
    intro x hx
    exact of_decide_eq_true (List.mem_filter.mp hx).2
  have hsum : (((c.map Packet.payload).filter (fun l => l ≠ [])).map
      List.length).sum ≤ len := by
    rw [← List.length_flatten, flatten_filter_ne_nil]
    exact hlen
  have hcg := concatGo_all ((c.map Packet.payload).filter (fun l => l ≠ []))
    len hne hsum
  refine ⟨?_, ?_, ?_⟩
  · show (concatGo len (runStream (initialIncomingStream rid idLen sigLen)
      ps).receiveQueue).1 = _
    rw [hQ, hcg]
    exact flatten_filter_ne_nil _
  · have h0 : (↑(runStream (initialIncomingStream rid idLen sigLen)
        ps).savedPackets : Multiset Packet) = 0 := by
      rw [hsavedm, List.take_length, tsub_self]
    exact (Multiset.coe_eq_zero _).mp h0
  · rw [hlast]

def c1p0 : Packet :=
  { receiveStreamID := 7, seqn := 0, ackThrough := 0, nacks := [], isSyn := true,
    isClose := false, isNoAck := true, hasSig := true, sigOk := true,
    payload := [10, 11] }

def c1p1 : Packet :=
  { receiveStreamID := 7, seqn := 1, ackThrough := 0, nacks := [], isSyn := false,
    isClose := false, isNoAck := false, hasSig := false, sigOk := false,
    payload := [12] }

def c1p2 : Packet :=
  { receiveStreamID := 7, seqn := 2, ackThrough := 1, nacks := [], isSyn := false,
    isClose := false, isNoAck := false, hasSig := false, sigOk := false,
    payload := [13, 14] }

def c1canonical : List Packet := [c1p0, c1p1, c1p2]

/-- An arrival order with the SYN last, exercising the out-of-order buffer. -/
def c1arrival : List Packet := [c1p1, c1p2, c1p0]

theorem stream_inorder_reassembly_witness :
    (concatenatePackets (runStream (initialIncomingStream 7 387 40) c1arrival)
        16).1
      = (c1canonical.map Packet.payload).flatten
    ∧ (runStream (initialIncomingStream 7 387 40) c1arrival).savedPackets = []
    ∧ (runStream (initialIncomingStream 7 387 40) c1arrival).lastReceived
      = (c1canonical.length : Int) - 1 :=
  stream_inorder_reassembly c1canonical c1arrival 7 387 40 16
    (by decide) (by decide) (by decide) (by decide) (by decide) (by decide)

end I2pd
